import Mathlib

/-!
Verification of the deterministic fallback scoring engine and the tolerant
markdown-table parsing found in `src/evaluator.py` and `src/app.py` of the
HR candidate-screening repository.

Modelling conventions:
* Python floats are modelled as exact rationals (`ℚ`); every arithmetic
  operation in the scorers is `+ - * / min max` on small decimal constants,
  so the rational model matches the intended real-number semantics.
* Python strings are Lean `String`s; all string primitives used by the code
  (strip, lower, split, substring test, splitlines) are re-implemented below
  over `List Char` so that their behaviour is fully under the control of this
  development.  ASCII scope: `lower` maps A-Z, and the whitespace class is
  the ASCII/latin subset actually exercised by the program.
* Python dicts that the parser builds are modelled as association lists with
  Python's insertion-order/overwrite semantics (`pyDictOf` below).
-/

/-! ### Character classes (Python `str.splitlines`, `str.strip`, `\s`) -/

/-- Line-break characters recognised by Python `str.splitlines`. -/
def isBreakChar (c : Char) : Bool :=
  c = '\n' || c = '\r' || c = '\x0b' || c = '\x0c' ||
  c = '\x1c' || c = '\x1d' || c = '\x1e' || c = '\x85' || c = '\u2028' || c = '\u2029'

/-- Whitespace as stripped by Python `str.strip` / matched by `\s`
(ASCII/latin subset; all break characters are whitespace). -/
def isPySpace (c : Char) : Bool :=
  isBreakChar c || c = ' ' || c = '\t'

/-! ### String primitives -/

/-- `needle` occurs as a contiguous substring of the second list
(Python's `needle in hay`). -/
def isSubstrL (needle : List Char) : List Char → Bool
  | [] => needle.isEmpty
  | c :: rest => needle.isPrefixOf (c :: rest) || isSubstrL needle rest

/-- Python `sub in hay` on strings. -/
def strContains (hay sub : String) : Bool :=
  isSubstrL sub.data hay.data

/-- Python `str.lower` (ASCII). -/
def lowerS (s : String) : String :=
  String.mk (s.data.map Char.toLower)

/-- Drop the longest suffix of characters satisfying `p`. -/
def dropTrail (p : Char → Bool) (cs : List Char) : List Char :=
  (cs.reverse.dropWhile p).reverse

/-- Python `str.strip` on the character list. -/
def trimChars (cs : List Char) : List Char :=
  dropTrail isPySpace (cs.dropWhile isPySpace)

/-- Python `str.strip`. -/
def trimS (s : String) : String := String.mk (trimChars s.data)

/-- Python `str.rstrip`. -/
def rstripS (s : String) : String := String.mk (dropTrail isPySpace s.data)

/-- Python `min` on two rationals (kernel-reducible). -/
def pymin (a b : ℚ) : ℚ := if a ≤ b then a else b

/-- Python `max` on two rationals (kernel-reducible). -/
def pymax (a b : ℚ) : ℚ := if b ≤ a then a else b

/-- Python float division, modelled as exact rational division in a
kernel-reducible form (`a / b` on `ℚ` itself does not reduce). -/
def pydiv (a b : ℚ) : ℚ := Rat.divInt (a.num * (b.den : ℤ)) ((a.den : ℤ) * b.num)

theorem pydiv_eq_div (a b : ℚ) : pydiv a b = a / b := by
  unfold pydiv
  rcases eq_or_ne b 0 with hb | hb
  · subst hb
    simp [Rat.divInt_eq_div]
  · have had : ((a.den : ℚ)) ≠ 0 := by exact_mod_cast a.den_nz
    have hbd : ((b.den : ℚ)) ≠ 0 := by exact_mod_cast b.den_nz
    have hbn : ((b.num : ℚ)) ≠ 0 := by exact_mod_cast Rat.num_ne_zero.mpr hb
    have ha' : (a.num : ℚ) = a * (a.den : ℚ) := (div_eq_iff had).mp (Rat.num_div_den a)
    have hb' : (b.num : ℚ) = b * (b.den : ℚ) := (div_eq_iff hbd).mp (Rat.num_div_den b)
    rw [Rat.divInt_eq_div]
    push_cast
    rw [div_eq_div_iff (mul_ne_zero had hbn) hb, ha', hb']
    ring

theorem pymin_eq_min (a b : ℚ) : pymin a b = min a b := by
  unfold pymin
  split_ifs with h
  · exact (min_eq_left h).symm
  · exact (min_eq_right (le_of_not_le h)).symm

theorem pymax_eq_max (a b : ℚ) : pymax a b = max a b := by
  unfold pymax
  split_ifs with h
  · exact (max_eq_left h).symm
  · exact (max_eq_right (le_of_not_le h)).symm

/-! ### The two deterministic fallback scorers -/

/-- The candidate-extraction mapping consumed by `compute_fallback_score`;
fields carry the values after the `dict.get(..., default) or default`
normalisation done at the top of the Python function. -/
structure FoundationalData where
  matched_skills_full : List String
  missing_skills_full : List String
  top_qualifications_full : List String
  quantifiable_achievements_full : List String
  relevant_experience_summary : String
  years_of_experience : ℚ
  education_level : String

/-- The rubric-weight mapping; `none` models an absent key, in which case
the scorer substitutes its hard-coded default. -/
structure RubricWeights where
  matched_skills_w : Option ℚ
  experience_relevance_w : Option ℚ
  qualifications_w : Option ℚ
  seniority_w : Option ℚ
  cv_clarity_w : Option ℚ

/-- `critical_skills_list` preprocessing shared by both scorer variants:
`[c.strip().lower() for c in critical_skills_list if c.strip()]` followed by
the filter keeping the entries with no case-insensitive substring match in
`matched`. -/
def missing_criticals (critical_skills_list : List String) (matched : List String) :
    List String :=
  let crit_lower :=
    (critical_skills_list.filter (fun c => trimS c ≠ "")).map (fun c => lowerS (trimS c))
  crit_lower.filter (fun crit => ! matched.any (fun s => strContains (lowerS s) crit))

namespace Evaluator

/-- `src/evaluator.py` line 22. -/
def seniority_keywords : List String :=
  ["senior", "lead", "manager", "principal", "head", "director", "vp",
   "vice president", "cto", "ceo"]

/-- `src/evaluator.py` lines 13-16. -/
def matched_ratio (fd : FoundationalData) : ℚ :=
  let matched_count := fd.matched_skills_full.length
  let missing_count := fd.missing_skills_full.length
  if 0 < matched_count + missing_count then
    pydiv (matched_count : ℚ) ((matched_count : ℚ) + (missing_count : ℚ))
  else 0

/-- `src/evaluator.py` line 18. -/
def qual_score (fd : FoundationalData) : ℚ :=
  pymin 1 (pydiv (fd.top_qualifications_full.length : ℚ) 2)

/-- `src/evaluator.py` line 19. -/
def ach_score (fd : FoundationalData) : ℚ :=
  pymin 1 (pydiv (fd.quantifiable_achievements_full.length : ℚ) 2)

/-- `src/evaluator.py` line 9: the lower-cased experience summary. -/
def exp_summary (fd : FoundationalData) : String :=
  lowerS fd.relevant_experience_summary

/-- `src/evaluator.py` line 20. -/
def exp_presence (fd : FoundationalData) : ℚ :=
  if trimS (exp_summary fd) ≠ "" then 1 else 0

/-- `src/evaluator.py` line 23. -/
def seniority_score (fd : FoundationalData) : ℚ :=
  if seniority_keywords.any (fun k => strContains (exp_summary fd) k) then 1 else 0

/-- `src/evaluator.py` line 25. -/
def years_score (fd : FoundationalData) : ℚ :=
  pymin 1 (pydiv fd.years_of_experience 10)

/-- `src/evaluator.py` lines 27-33. -/
def edu_score (fd : FoundationalData) : ℚ :=
  let education := lowerS fd.education_level
  if strContains education "phd" || strContains education "doctorate" then 1
  else if strContains education "master" || strContains education "mba" then pydiv 85 100
  else if strContains education "bachelor" then pydiv 7 10
  else pydiv 5 10

/-- `src/evaluator.py` lines 35-43. -/
def cv_clarity_score (cv_text : String) : ℚ :=
  let cv_len := cv_text.length
  if 2000 < cv_len then 1
  else if 800 < cv_len then pydiv 7 10
  else if 300 < cv_len then pydiv 4 10
  else pydiv 15 100

/-- `src/evaluator.py` lines 45-57: weight normalisation and the weighted
composite. -/
def weighted_percent (fd : FoundationalData) (cv_text : String) (w : RubricWeights) : ℚ :=
  let mw := pydiv (w.matched_skills_w.getD 50) 100
  let ew := pydiv (w.experience_relevance_w.getD 20) 100
  let qw := pydiv (w.qualifications_w.getD 15) 100
  let sw := pydiv (w.seniority_w.getD 10) 100
  let cw := pydiv (w.cv_clarity_w.getD 5) 100
  let comp_matched := matched_ratio fd
  let comp_exp := exp_presence fd * pydiv 4 10 + years_score fd * pydiv 6 10
  let comp_qual := qual_score fd * pydiv 5 10 + ach_score fd * pydiv 3 10 + edu_score fd * pydiv 2 10
  let comp_sen := seniority_score fd
  let comp_clar := cv_clarity_score cv_text
  comp_matched * mw + comp_exp * ew + comp_qual * qw + comp_sen * sw + comp_clar * cw

/-- `src/evaluator.py` lines 60-62. -/
def miss_penalty (fd : FoundationalData) : ℚ :=
  pymin (pydiv 25 10) ((fd.missing_skills_full.length : ℚ) * pydiv 4 10)

/-- `src/evaluator.py` lines 58-63: score after scaling and missing-skill
penalty, before the critical-skill cap. -/
def pre_cap_score (fd : FoundationalData) (cv_text : String) (w : RubricWeights) : ℚ :=
  1 + weighted_percent fd cv_text w * 9 - miss_penalty fd

/-- `src/evaluator.py` lines 65-72: the critical-skill hard ceiling. -/
def capped_score (fd : FoundationalData) (cv_text : String) (w : RubricWeights)
    (critical_skills_list : List String) : ℚ :=
  let score := pre_cap_score fd cv_text w
  if critical_skills_list ≠ [] then
    if missing_criticals critical_skills_list fd.matched_skills_full ≠ [] then
      pymin score (pydiv 45 10)
    else score
  else score

/-- `src/evaluator.py` line 74: the final clamp. -/
def final_score (fd : FoundationalData) (cv_text : String) (w : RubricWeights)
    (critical_skills_list : List String) : ℚ :=
  pymax 0 (pymin 10 (capped_score fd cv_text w critical_skills_list))

/-- `src/evaluator.py` lines 76-81. -/
def fit_label (score : ℚ) : String :=
  if 8 ≤ score then "High"
  else if pydiv 55 10 ≤ score then "Medium"
  else "Low"

/-- `src/evaluator.py` lines 4-100, returning the `(score, fit)` part of the
result triple.  The deterministic rationale string (lines 83-98) is not
referenced by any claim and is omitted from the model. -/
def compute_fallback_score (fd : FoundationalData) (cv_text : String)
    (weights : RubricWeights) (critical_skills_list : List String) : ℚ × String :=
  let score := final_score fd cv_text weights critical_skills_list
  (score, fit_label score)

end Evaluator

namespace App

/-- `src/app.py` line 335. -/
def seniority_keywords : List String :=
  ["senior", "lead", "manager", "principal", "head", "director"]

/-- `src/app.py` lines 323-328. -/
def matched_ratio (fd : FoundationalData) : ℚ :=
  let matched_count := fd.matched_skills_full.length
  let missing_count := fd.missing_skills_full.length
  if 0 < matched_count + missing_count then
    pydiv (matched_count : ℚ) ((matched_count : ℚ) + (missing_count : ℚ))
  else 0

/-- `src/app.py` line 331. -/
def qual_score (fd : FoundationalData) : ℚ :=
  pymin 1 (pydiv (fd.top_qualifications_full.length : ℚ) 2)

/-- `src/app.py` line 332. -/
def ach_score (fd : FoundationalData) : ℚ :=
  pymin 1 (pydiv (fd.quantifiable_achievements_full.length : ℚ) 2)

/-- `src/app.py` line 321. -/
def exp_summary (fd : FoundationalData) : String :=
  lowerS fd.relevant_experience_summary

/-- `src/app.py` line 333. -/
def exp_presence (fd : FoundationalData) : ℚ :=
  if trimS (exp_summary fd) ≠ "" then 1 else 0

/-- `src/app.py` line 336. -/
def seniority_score (fd : FoundationalData) : ℚ :=
  if seniority_keywords.any (fun k => strContains (exp_summary fd) k) then 1 else 0

/-- `src/app.py` lines 338-346. -/
def cv_clarity_score (cv_text : String) : ℚ :=
  let cv_len := cv_text.length
  if 2000 < cv_len then 1
  else if 800 < cv_len then pydiv 8 10
  else if 300 < cv_len then pydiv 6 10
  else pydiv 3 10

/-- `src/app.py` lines 348-366. -/
def weighted_percent (fd : FoundationalData) (cv_text : String) (w : RubricWeights) : ℚ :=
  let mw := pydiv (w.matched_skills_w.getD 50) 100
  let ew := pydiv (w.experience_relevance_w.getD 20) 100
  let qw := pydiv (w.qualifications_w.getD 15) 100
  let sw := pydiv (w.seniority_w.getD 10) 100
  let cw := pydiv (w.cv_clarity_w.getD 5) 100
  let comp_matched := matched_ratio fd
  let comp_exp := exp_presence fd
  let comp_qual := pydiv (qual_score fd + ach_score fd) 2
  let comp_sen := seniority_score fd
  let comp_clar := cv_clarity_score cv_text
  comp_matched * mw + comp_exp * ew + comp_qual * qw + comp_sen * sw + comp_clar * cw

/-- `src/app.py` lines 371-375. -/
def miss_penalty (fd : FoundationalData) : ℚ :=
  pymin (pydiv 15 10) ((fd.missing_skills_full.length : ℚ) * pydiv 2 10)

/-- `src/app.py` lines 377-387: the critical-skill additive penalty
(`# Critical skills: mild penalty, not hard cap`). -/
def critical_penalty (fd : FoundationalData) (critical_skills_list : List String) : ℚ :=
  if critical_skills_list ≠ [] then
    if missing_criticals critical_skills_list fd.matched_skills_full ≠ [] then 1
    else 0
  else 0

/-- `src/app.py` lines 368-389: scale to 3-10, subtract both penalties,
clamp to [1, 10]. -/
def final_score (fd : FoundationalData) (cv_text : String) (w : RubricWeights)
    (critical_skills_list : List String) : ℚ :=
  pymax 1 (pymin 10
    (3 + weighted_percent fd cv_text w * 7 - miss_penalty fd
      - critical_penalty fd critical_skills_list))

/-- `src/app.py` lines 392-397. -/
def fit_label (score : ℚ) : String :=
  if pydiv 75 10 ≤ score then "High"
  else if 5 ≤ score then "Medium"
  else "Low"

/-- `src/app.py` lines 316-418, returning the `(score, fit)` part of the
result triple; the rationale string (lines 399-417) is not referenced by any
claim and is omitted from the model. -/
def compute_fallback_score (fd : FoundationalData) (cv_text : String)
    (weights : RubricWeights) (critical_skills_list : List String) : ℚ × String :=
  let score := final_score fd cv_text weights critical_skills_list
  (score, fit_label score)

end App

/-! ### Helper lemmas for the scorer theorems -/

/-- If some critical entry (trimmed, lower-cased, non-blank) has no
case-insensitive substring match among `matched`, the computed
`missing_criticals` list is non-empty. -/
theorem missing_criticals_ne_nil {crits matched : List String} {c : String}
    (hc : c ∈ crits) (hne : trimS c ≠ "")
    (hall : ∀ s ∈ matched, strContains (lowerS s) (lowerS (trimS c)) = false) :
    missing_criticals crits matched ≠ [] := by
  unfold missing_criticals
  intro hnil
  rw [List.filter_eq_nil] at hnil
  apply hnil (lowerS (trimS c))
  · exact List.mem_map_of_mem _ (List.mem_filter.mpr ⟨hc, by simp [hne]⟩)
  · simp only [Bool.not_eq_true']
    rw [List.any_eq_false]
    intro s hs
    simp [hall s hs]

/-- Fit-label characterisation for the evaluator profile. -/
theorem evaluator_fit_label_iff (s : ℚ) :
    (Evaluator.fit_label s = "High" ↔ 8 ≤ s) ∧
    (Evaluator.fit_label s = "Medium" ↔ 5.5 ≤ s ∧ s < 8) ∧
    (Evaluator.fit_label s = "Low" ↔ s < 5.5) := by
  have h55 : pydiv 55 10 = (5.5 : ℚ) := by rw [pydiv_eq_div]; norm_num
  unfold Evaluator.fit_label
  rw [h55]
  split_ifs with h1 h2 <;>
    refine ⟨?_, ?_, ?_⟩ <;> simp_all <;> first | linarith | (intro h; linarith)

/-- Fit-label characterisation for the app profile. -/
theorem app_fit_label_iff (s : ℚ) :
    (App.fit_label s = "High" ↔ 7.5 ≤ s) ∧
    (App.fit_label s = "Medium" ↔ 5 ≤ s ∧ s < 7.5) ∧
    (App.fit_label s = "Low" ↔ s < 5) := by
  have h75 : pydiv 75 10 = (7.5 : ℚ) := by rw [pydiv_eq_div]; norm_num
  unfold App.fit_label
  rw [h75]
  split_ifs with h1 h2 <;>
    refine ⟨?_, ?_, ?_⟩ <;> simp_all <;> first | linarith | (intro h; linarith)

/-! ### C1: the critical-skill override -/

/-- C1 counterexample: in `src/app.py`'s `compute_fallback_score`, a missing
critical skill ("zzz", trimmed and lower-cased, not a substring of the single
matched skill "a") does not cap the score at 4.5: the returned score is 9. -/
theorem c1_app_no_ceiling_counterexample :
    (∀ s ∈ ["a"], strContains (lowerS s) (lowerS (trimS "zzz")) = false) ∧
    (App.compute_fallback_score
        ⟨["a"], [], [], [], "", 0, ""⟩ ""
        ⟨some 100, some 0, some 0, some 0, some 0⟩ ["zzz"]).1 = 9 ∧
    (4.5 : ℚ) < 9 := by
  refine ⟨by decide, ?_, by norm_num⟩
  show App.final_score ⟨["a"], [], [], [], "", 0, ""⟩ ""
    ⟨some 100, some 0, some 0, some 0, some 0⟩ ["zzz"] = 9
  have hwp : App.weighted_percent ⟨["a"], [], [], [], "", 0, ""⟩ ""
      ⟨some 100, some 0, some 0, some 0, some 0⟩ = 1 := by
    unfold App.weighted_percent App.matched_ratio App.qual_score App.ach_score
      App.exp_presence App.exp_summary App.seniority_score App.cv_clarity_score
    simp only [pydiv_eq_div, pymin_eq_min]
    norm_num
  have hmp : App.miss_penalty ⟨["a"], [], [], [], "", 0, ""⟩ = 0 := by
    unfold App.miss_penalty
    simp only [pydiv_eq_div, pymin_eq_min]
    norm_num
  have hcp : App.critical_penalty ⟨["a"], [], [], [], "", 0, ""⟩ ["zzz"] = 1 := by
    unfold App.critical_penalty
    rw [if_pos (by decide), if_pos (by decide)]
  unfold App.final_score
  rw [hwp, hmp, hcp]
  simp only [pymin_eq_min, pymax_eq_max]
  norm_num

/-- C1 (amended): in `src/evaluator.py`'s `compute_fallback_score`, if at
least one critical skill (after trimming and lower-casing, ignoring blank
entries) is not a case-insensitive substring of any matched-skill entry, the
returned score never exceeds 4.5, whatever the other components, weights and
penalties are: the override is a hard ceiling, not a subtraction. -/
theorem c1_evaluator_critical_ceiling (fd : FoundationalData) (cv : String)
    (w : RubricWeights) (crits : List String)
    (h : ∃ c ∈ crits, trimS c ≠ "" ∧
      ∀ s ∈ fd.matched_skills_full, strContains (lowerS s) (lowerS (trimS c)) = false) :
    (Evaluator.compute_fallback_score fd cv w crits).1 ≤ 4.5 := by
  obtain ⟨c, hc, hne, hall⟩ := h
  have hcrits : crits ≠ [] := List.ne_nil_of_mem hc
  have hmc : missing_criticals crits fd.matched_skills_full ≠ [] :=
    missing_criticals_ne_nil hc hne hall
  show Evaluator.final_score fd cv w crits ≤ 4.5
  unfold Evaluator.final_score Evaluator.capped_score
  rw [if_pos hcrits, if_pos hmc]
  simp only [pymin_eq_min, pymax_eq_max]
  refine max_le (by norm_num) (le_trans (min_le_right _ _)
    (le_trans (min_le_right _ _) ?_))
  rw [pydiv_eq_div]
  norm_num

/-- Witness for `c1_evaluator_critical_ceiling` at a concrete input. -/
theorem c1_evaluator_critical_ceiling_witness :
    (∃ c ∈ ["Python"], trimS c ≠ "" ∧
      ∀ s ∈ ["java"], strContains (lowerS s) (lowerS (trimS c)) = false) ∧
    (Evaluator.compute_fallback_score
        ⟨["java"], [], [], [], "", 0, ""⟩ ""
        ⟨none, none, none, none, none⟩ ["Python"]).1 ≤ 4.5 :=
  ⟨by decide,
   c1_evaluator_critical_ceiling ⟨["java"], [], [], [], "", 0, ""⟩ ""
     ⟨none, none, none, none, none⟩ ["Python"] (by decide)⟩

/-! ### C2: fit thresholds -/

/-- C2 counterexample: `src/app.py`'s scorer labels a score of 7.55 as
"High" even though 7.55 < 8.0, contradicting the claimed 8.0/5.5 thresholds
(the app profile uses 7.5/5.0). -/
theorem c2_app_thresholds_counterexample :
    (App.compute_fallback_score ⟨["a"], [], [], [], "", 0, ""⟩ ""
        ⟨some 65, some 0, some 0, some 0, some 0⟩ []).2 = "High" ∧
    (App.compute_fallback_score ⟨["a"], [], [], [], "", 0, ""⟩ ""
        ⟨some 65, some 0, some 0, some 0, some 0⟩ []).1 < 8 := by
  have hwp : App.weighted_percent ⟨["a"], [], [], [], "", 0, ""⟩ ""
      ⟨some 65, some 0, some 0, some 0, some 0⟩ = 13/20 := by
    unfold App.weighted_percent App.matched_ratio App.qual_score App.ach_score
      App.exp_presence App.exp_summary App.seniority_score App.cv_clarity_score
    simp only [pydiv_eq_div, pymin_eq_min]
    norm_num
  have hmp : App.miss_penalty ⟨["a"], [], [], [], "", 0, ""⟩ = 0 := by
    unfold App.miss_penalty
    simp only [pydiv_eq_div, pymin_eq_min]
    norm_num
  have hcp : App.critical_penalty ⟨["a"], [], [], [], "", 0, ""⟩ [] = 0 := by
    unfold App.critical_penalty
    rw [if_neg (by decide)]
  have hs : App.final_score ⟨["a"], [], [], [], "", 0, ""⟩ ""
      ⟨some 65, some 0, some 0, some 0, some 0⟩ [] = 151/20 := by
    unfold App.final_score
    rw [hwp, hmp, hcp]
    simp only [pymin_eq_min, pymax_eq_max]
    norm_num
  constructor
  · show App.fit_label (App.final_score ⟨["a"], [], [], [], "", 0, ""⟩ ""
      ⟨some 65, some 0, some 0, some 0, some 0⟩ []) = "High"
    rw [hs]
    unfold App.fit_label
    rw [if_pos (by rw [pydiv_eq_div]; norm_num)]
  · show App.final_score ⟨["a"], [], [], [], "", 0, ""⟩ ""
      ⟨some 65, some 0, some 0, some 0, some 0⟩ [] < 8
    rw [hs]
    norm_num

/-- C2 (amended): the evaluator scorer classifies with thresholds 8.0/5.5
exactly as the claim states, and the app scorer with 7.5/5.0; in both, "High"
holds iff the final score is at or above the High threshold, "Low" iff it is
below the Medium threshold, and the three labels partition the score range. -/
theorem c2_fit_score_consistency (fd : FoundationalData) (cv : String)
    (w : RubricWeights) (crits : List String) :
    (((Evaluator.compute_fallback_score fd cv w crits).2 = "High" ↔
        8 ≤ (Evaluator.compute_fallback_score fd cv w crits).1) ∧
      ((Evaluator.compute_fallback_score fd cv w crits).2 = "Medium" ↔
        5.5 ≤ (Evaluator.compute_fallback_score fd cv w crits).1 ∧
          (Evaluator.compute_fallback_score fd cv w crits).1 < 8) ∧
      ((Evaluator.compute_fallback_score fd cv w crits).2 = "Low" ↔
        (Evaluator.compute_fallback_score fd cv w crits).1 < 5.5)) ∧
    (((App.compute_fallback_score fd cv w crits).2 = "High" ↔
        7.5 ≤ (App.compute_fallback_score fd cv w crits).1) ∧
      ((App.compute_fallback_score fd cv w crits).2 = "Medium" ↔
        5 ≤ (App.compute_fallback_score fd cv w crits).1 ∧
          (App.compute_fallback_score fd cv w crits).1 < 7.5) ∧
      ((App.compute_fallback_score fd cv w crits).2 = "Low" ↔
        (App.compute_fallback_score fd cv w crits).1 < 5)) := by
  constructor
  · exact evaluator_fit_label_iff (Evaluator.final_score fd cv w crits)
  · exact app_fit_label_iff (App.final_score fd cv w crits)

/-! ### C4: clamp invariant -/

/-- C4: for every input — including weights outside [0,100], empty lists and
empty `cv_text` — both scorers return a score in [0, 10], enforced by the
final clamp. -/
theorem c4_clamp_invariant (fd : FoundationalData) (cv : String)
    (w : RubricWeights) (crits : List String) :
    (0 ≤ (Evaluator.compute_fallback_score fd cv w crits).1 ∧
      (Evaluator.compute_fallback_score fd cv w crits).1 ≤ 10) ∧
    (0 ≤ (App.compute_fallback_score fd cv w crits).1 ∧
      (App.compute_fallback_score fd cv w crits).1 ≤ 10) := by
  unfold Evaluator.compute_fallback_score App.compute_fallback_score
    Evaluator.final_score App.final_score
  simp only [pymin_eq_min, pymax_eq_max]
  refine ⟨⟨le_max_left _ _, ?_⟩, ⟨?_, ?_⟩⟩
  · exact max_le (by norm_num) (min_le_left _ _)
  · exact le_trans (by norm_num) (le_max_left (1 : ℚ) _)
  · exact max_le (by norm_num) (min_le_left _ _)

/-! ### C10: weight defaults -/

/-- Fill every absent rubric-weight key with the scorer's default. -/
def fill_weights (w : RubricWeights) : RubricWeights :=
  ⟨some (w.matched_skills_w.getD 50), some (w.experience_relevance_w.getD 20),
   some (w.qualifications_w.getD 15), some (w.seniority_w.getD 10),
   some (w.cv_clarity_w.getD 5)⟩

/-- C10: absent rubric-weight keys are read as the defaults 50/20/15/10/5 in
both scorers (so the scorers are total even on an empty weights mapping, and
absent keys are not treated as zero). -/
theorem c10_weight_defaults (fd : FoundationalData) (cv : String)
    (w : RubricWeights) (crits : List String) :
    Evaluator.compute_fallback_score fd cv w crits =
      Evaluator.compute_fallback_score fd cv (fill_weights w) crits ∧
    App.compute_fallback_score fd cv w crits =
      App.compute_fallback_score fd cv (fill_weights w) crits ∧
    Evaluator.compute_fallback_score fd cv ⟨none, none, none, none, none⟩ crits =
      Evaluator.compute_fallback_score fd cv
        ⟨some 50, some 20, some 15, some 10, some 5⟩ crits ∧
    App.compute_fallback_score fd cv ⟨none, none, none, none, none⟩ crits =
      App.compute_fallback_score fd cv
        ⟨some 50, some 20, some 15, some 10, some 5⟩ crits := by
  refine ⟨?_, ?_, ?_, ?_⟩ <;>
    simp [Evaluator.compute_fallback_score, App.compute_fallback_score,
      Evaluator.final_score, App.final_score, Evaluator.capped_score,
      Evaluator.pre_cap_score, Evaluator.weighted_percent, App.weighted_percent,
      fill_weights]

/-! ### C3: monotonicity in `matched_skills` -/

/-- The matched ratio `m/(m+k)` (0 when both counts are zero) does not
decrease when the matched count grows by one. -/
theorem ratio_step (m k : ℕ) :
    (if 0 < m + k then pydiv (m : ℚ) ((m : ℚ) + (k : ℚ)) else 0) ≤
      (if 0 < m + 1 + k then pydiv ((m : ℚ) + 1) (((m : ℚ) + 1) + (k : ℚ)) else 0) := by
  simp only [pydiv_eq_div]
  have hk : (0 : ℚ) ≤ (k : ℚ) := by positivity
  have hm : (0 : ℚ) ≤ (m : ℚ) := by positivity
  by_cases h : 0 < m + k
  · rw [if_pos h, if_pos (show 0 < m + 1 + k by omega)]
    have hmk : (0 : ℚ) < (m : ℚ) + (k : ℚ) := by
      rcases (by omega : 0 < m ∨ 0 < k) with h' | h'
    -- whichever count is positive pushes the sum above zero
      · have hm' : (0 : ℚ) < (m : ℚ) := by exact_mod_cast h'
        linarith
      · have hk' : (0 : ℚ) < (k : ℚ) := by exact_mod_cast h'
        linarith
    rw [div_le_div_iff hmk (by linarith)]
    nlinarith
  · rw [if_neg h, if_pos (show 0 < m + 1 + k by omega)]
    positivity

/-- Appending a matched skill does not decrease the evaluator's matched
ratio. -/
theorem matched_ratio_append_eval (fd : FoundationalData) (x : String) :
    Evaluator.matched_ratio fd ≤
      Evaluator.matched_ratio
        {fd with matched_skills_full := fd.matched_skills_full ++ [x]} := by
  unfold Evaluator.matched_ratio
  dsimp only
  rw [List.length_append]
  simp only [List.length_singleton]
  have h := ratio_step fd.matched_skills_full.length fd.missing_skills_full.length
  push_cast at h ⊢
  exact h

/-- Appending a matched skill does not decrease the app scorer's matched
ratio. -/
theorem matched_ratio_append_app (fd : FoundationalData) (x : String) :
    App.matched_ratio fd ≤
      App.matched_ratio
        {fd with matched_skills_full := fd.matched_skills_full ++ [x]} := by
  unfold App.matched_ratio
  dsimp only
  rw [List.length_append]
  simp only [List.length_singleton]
  have h := ratio_step fd.matched_skills_full.length fd.missing_skills_full.length
  push_cast at h ⊢
  exact h

/-- Appending one matched skill leaves every other component unchanged and
does not decrease the evaluator's weighted composite. -/
theorem evaluator_wp_append (fd : FoundationalData) (cv : String) (w : RubricWeights)
    (x : String) (hmw : 0 ≤ w.matched_skills_w.getD 50) :
    Evaluator.weighted_percent fd cv w ≤
      Evaluator.weighted_percent
        {fd with matched_skills_full := fd.matched_skills_full ++ [x]} cv w := by
  have hr := matched_ratio_append_eval fd x
  unfold Evaluator.weighted_percent
  dsimp only
  have e1 : Evaluator.exp_presence {fd with matched_skills_full := fd.matched_skills_full ++ [x]} =
      Evaluator.exp_presence fd := rfl
  have e2 : Evaluator.years_score {fd with matched_skills_full := fd.matched_skills_full ++ [x]} =
      Evaluator.years_score fd := rfl
  have e3 : Evaluator.qual_score {fd with matched_skills_full := fd.matched_skills_full ++ [x]} =
      Evaluator.qual_score fd := rfl
  have e4 : Evaluator.ach_score {fd with matched_skills_full := fd.matched_skills_full ++ [x]} =
      Evaluator.ach_score fd := rfl
  have e5 : Evaluator.edu_score {fd with matched_skills_full := fd.matched_skills_full ++ [x]} =
      Evaluator.edu_score fd := rfl
  have e6 : Evaluator.seniority_score {fd with matched_skills_full := fd.matched_skills_full ++ [x]} =
      Evaluator.seniority_score fd := rfl
  rw [e1, e2, e3, e4, e5, e6]
  have hmw' : 0 ≤ pydiv (w.matched_skills_w.getD 50) 100 := by
    rw [pydiv_eq_div]
    positivity
  have hmul := mul_le_mul_of_nonneg_right hr hmw'
  linarith

/-- Appending one matched skill does not decrease the app scorer's weighted
composite. -/
theorem app_wp_append (fd : FoundationalData) (cv : String) (w : RubricWeights)
    (x : String) (hmw : 0 ≤ w.matched_skills_w.getD 50) :
    App.weighted_percent fd cv w ≤
      App.weighted_percent
        {fd with matched_skills_full := fd.matched_skills_full ++ [x]} cv w := by
  have hr := matched_ratio_append_app fd x
  unfold App.weighted_percent
  dsimp only
  have e1 : App.exp_presence {fd with matched_skills_full := fd.matched_skills_full ++ [x]} =
      App.exp_presence fd := rfl
  have e3 : App.qual_score {fd with matched_skills_full := fd.matched_skills_full ++ [x]} =
      App.qual_score fd := rfl
  have e4 : App.ach_score {fd with matched_skills_full := fd.matched_skills_full ++ [x]} =
      App.ach_score fd := rfl
  have e6 : App.seniority_score {fd with matched_skills_full := fd.matched_skills_full ++ [x]} =
      App.seniority_score fd := rfl
  rw [e1, e3, e4, e6]
  have hmw' : 0 ≤ pydiv (w.matched_skills_w.getD 50) 100 := by
    rw [pydiv_eq_div]
    positivity
  have hmul := mul_le_mul_of_nonneg_right hr hmw'
  linarith

/-- A critical skill still missing after appending a matched entry was
already missing before. -/
theorem missing_criticals_append {crits l : List String} {x : String}
    (h : missing_criticals crits (l ++ [x]) ≠ []) : missing_criticals crits l ≠ [] := by
  unfold missing_criticals at h ⊢
  intro hnil
  apply h
  rw [List.filter_eq_nil] at hnil ⊢
  intro c hc
  have hl := hnil c hc
  simp only [Bool.not_eq_true, Bool.not_eq_true'] at hl ⊢
  rw [Bool.not_eq_false] at hl
  rw [Bool.not_eq_false]
  rw [List.any_append]
  simp [hl]

/-- C3: with non-negative rubric weights, adding an entry to
`matched_skills` (holding every other input fixed) never decreases either
scorer's returned score: the matched ratio grows, the missing-skill penalty
is unchanged, and the critical-skill override can only be lifted. -/
theorem c3_monotonicity_matched (fd : FoundationalData) (cv : String) (w : RubricWeights)
    (crits : List String) (x : String)
    (h : 0 ≤ w.matched_skills_w.getD 50 ∧ 0 ≤ w.experience_relevance_w.getD 20 ∧
      0 ≤ w.qualifications_w.getD 15 ∧ 0 ≤ w.seniority_w.getD 10 ∧
      0 ≤ w.cv_clarity_w.getD 5) :
    (Evaluator.compute_fallback_score fd cv w crits).1 ≤
      (Evaluator.compute_fallback_score
        {fd with matched_skills_full := fd.matched_skills_full ++ [x]} cv w crits).1 ∧
    (App.compute_fallback_score fd cv w crits).1 ≤
      (App.compute_fallback_score
        {fd with matched_skills_full := fd.matched_skills_full ++ [x]} cv w crits).1 := by
  obtain ⟨hmw, -, -, -, -⟩ := h
  constructor
  · show Evaluator.final_score fd cv w crits ≤
      Evaluator.final_score {fd with matched_skills_full := fd.matched_skills_full ++ [x]}
        cv w crits
    have hpre : Evaluator.pre_cap_score fd cv w ≤
        Evaluator.pre_cap_score {fd with matched_skills_full := fd.matched_skills_full ++ [x]}
          cv w := by
      unfold Evaluator.pre_cap_score
      have hmiss : Evaluator.miss_penalty
          {fd with matched_skills_full := fd.matched_skills_full ++ [x]} =
          Evaluator.miss_penalty fd := rfl
      rw [hmiss]
      have hwp := evaluator_wp_append fd cv w x hmw
      linarith
    have hcap : Evaluator.capped_score fd cv w crits ≤
        Evaluator.capped_score {fd with matched_skills_full := fd.matched_skills_full ++ [x]}
          cv w crits := by
      unfold Evaluator.capped_score
      dsimp only
      by_cases hc : crits ≠ []
      · rw [if_pos hc, if_pos hc]
        by_cases hmc' : missing_criticals crits (fd.matched_skills_full ++ [x]) ≠ []
        · have hmc : missing_criticals crits fd.matched_skills_full ≠ [] :=
            missing_criticals_append hmc'
          rw [if_pos hmc', if_pos hmc]
          simp only [pymin_eq_min]
          exact min_le_min hpre le_rfl
        · rw [if_neg hmc']
          by_cases hmc : missing_criticals crits fd.matched_skills_full ≠ []
          · rw [if_pos hmc]
            simp only [pymin_eq_min]
            exact le_trans (min_le_left _ _) hpre
          · rw [if_neg hmc]
            exact hpre
      · rw [if_neg hc, if_neg hc]
        exact hpre
    unfold Evaluator.final_score
    simp only [pymin_eq_min, pymax_eq_max]
    exact max_le_max le_rfl (min_le_min le_rfl hcap)
  · show App.final_score fd cv w crits ≤
      App.final_score {fd with matched_skills_full := fd.matched_skills_full ++ [x]} cv w crits
    have hwp := app_wp_append fd cv w x hmw
    have hcp : App.critical_penalty
        {fd with matched_skills_full := fd.matched_skills_full ++ [x]} crits ≤
        App.critical_penalty fd crits := by
      unfold App.critical_penalty
      dsimp only
      by_cases hc : crits ≠ []
      · rw [if_pos hc, if_pos hc]
        by_cases hmc' : missing_criticals crits (fd.matched_skills_full ++ [x]) ≠ []
        · have hmc : missing_criticals crits fd.matched_skills_full ≠ [] :=
            missing_criticals_append hmc'
          rw [if_pos hmc', if_pos hmc]
        · rw [if_neg hmc']
          split_ifs <;> norm_num
      · rw [if_neg hc, if_neg hc]
    have hmiss : App.miss_penalty
        {fd with matched_skills_full := fd.matched_skills_full ++ [x]} =
        App.miss_penalty fd := rfl
    unfold App.final_score
    rw [hmiss]
    simp only [pymin_eq_min, pymax_eq_max]
    refine max_le_max le_rfl (min_le_min le_rfl ?_)
    linarith

/-- Witness for `c3_monotonicity_matched` at a concrete input. -/
theorem c3_monotonicity_matched_witness :
    ((0 : ℚ) ≤ (none : Option ℚ).getD 50 ∧ 0 ≤ (none : Option ℚ).getD 20 ∧
      0 ≤ (none : Option ℚ).getD 15 ∧ 0 ≤ (none : Option ℚ).getD 10 ∧
      0 ≤ (none : Option ℚ).getD 5) ∧
    (Evaluator.compute_fallback_score ⟨[], ["b"], [], [], "", 0, ""⟩ ""
        ⟨none, none, none, none, none⟩ []).1 ≤
      (Evaluator.compute_fallback_score ⟨[] ++ ["py"], ["b"], [], [], "", 0, ""⟩ ""
        ⟨none, none, none, none, none⟩ []).1 :=
  ⟨⟨by decide, by decide, by decide, by decide, by decide⟩,
   (c3_monotonicity_matched ⟨[], ["b"], [], [], "", 0, ""⟩ ""
     ⟨none, none, none, none, none⟩ [] "py"
     ⟨by decide, by decide, by decide, by decide, by decide⟩).1⟩

/-! ### Parser infrastructure -/

/-- Split a character list at every separator character (Python
`str.split`-style); returns the first group and the remaining groups. -/
def splitPAux (p : Char → Bool) : List Char → List Char × List (List Char)
  | [] => ([], [])
  | c :: cs =>
    let r := splitPAux p cs
    if p c then ([], r.1 :: r.2) else (c :: r.1, r.2)

/-- All groups of `cs` between separator characters (always non-empty as a
list of groups, like Python `str.split` on a single separator). -/
def groupsBy (p : Char → Bool) (cs : List Char) : List (List Char) :=
  (splitPAux p cs).1 :: (splitPAux p cs).2

/-- A character that survives `str.strip`: neither whitespace nor a line
break. -/
def goodChar (c : Char) : Bool := ! isPySpace c

/-- Python `txt.splitlines()` followed by
`[ln.rstrip() for ln in ... if ln.strip()]`: the non-blank lines,
right-stripped.  (Splitting on every break character and discarding blank
groups coincides with `str.splitlines` plus the blank filter, `\r\n`
producing an extra blank group that the filter removes.) -/
def linesOf (cs : List Char) : List String :=
  ((groupsBy isBreakChar cs).filter (fun g => g.any goodChar)).map
    (fun g => String.mk (dropTrail isPySpace g))

/-- Python `line.split('|')`. -/
def splitBar (s : String) : List String :=
  (groupsBy (fun c => c = '|') s.data).map String.mk

/-- `[h.strip() for h in line.split('|') if h.strip()]`. -/
def cells_of (line : String) : List String :=
  ((splitBar line).map trimS).filter (fun c => c ≠ "")

/-- Python dict assignment `d[k] = v`: replace in place if the key exists,
else append. -/
def pyDictInsert (d : List (String × String)) (k v : String) : List (String × String) :=
  if d.any (fun kv => kv.1 == k) then
    d.map (fun kv => if kv.1 == k then (kv.1, v) else kv)
  else d ++ [(k, v)]

/-- Python `dict(pairs)`: insert every pair in order (later duplicates
overwrite, insertion order kept). -/
def pyDictOf (pairs : List (String × String)) : List (String × String) :=
  pairs.foldl (fun d kv => pyDictInsert d kv.1 kv.2) []

/-- Python `d.get(k)`. -/
def pyGet (d : List (String × String)) (k : String) : Option String :=
  (d.find? (fun kv => kv.1 == k)).map (fun kv => kv.2)

/-- Python `d.get(k, default)`. -/
def pyGetD (d : List (String × String)) (k : String) (dflt : String) : String :=
  (pyGet d k).getD dflt

/-- `re.sub(r'[^A-Za-z0-9 ]', '', k).strip()`. -/
def normKey (k : String) : String :=
  trimS (String.mk (k.data.filter (fun c => c.isAlphanum || c = ' ')))

/-- The row-to-mapping step shared verbatim by `src/evaluator.py` lines
128-156 and `src/app.py` lines 256-292: split header and data row on the
bar, reconcile the data row to the header's cardinality, zip into a dict,
normalise the keys and re-map them onto the seven canonical output keys. -/
def rows_to_mapped (header_line data_line filename : String) : List (String × String) :=
  let headers := cells_of header_line
  let data_row := cells_of data_line
  let data_row :=
    if headers.length ≠ data_row.length then
      if data_row.length < headers.length then
        data_row ++ List.replicate (headers.length - data_row.length) ""
      else data_row.take headers.length
    else data_row
  let result := pyDictInsert (pyDictOf (headers.zip data_row)) "filename" filename
  let normalized := pyDictOf (result.map (fun kv => (normKey kv.1, kv.2)))
  [("filename", filename),
   ("Score", pyGetD normalized "Score" (pyGetD normalized "score" "")),
   ("Fit", pyGetD normalized "Fit" (pyGetD normalized "fit" "")),
   ("Rationale", pyGetD normalized "Rationale" (pyGetD normalized "rationale" "")),
   ("Matched Skills",
     pyGetD normalized "Matched Skills" (pyGetD normalized "MatchedSkills" "")),
   ("Missing Skills",
     pyGetD normalized "Missing Skills" (pyGetD normalized "MissingSkills" "")),
   ("Top Qualifications",
     pyGetD normalized "Top Qualifications" (pyGetD normalized "TopQualifications" "")),
   ("Quantifiable Achievements",
     pyGetD normalized "Quantifiable Achievements"
       (pyGetD normalized "QuantifiableAchievements" ""))]

/-- The backquote character (written via its code point). -/
def tickChar : Char := Char.ofNat 96

/-- The list starts with three backquotes. -/
def startsWithFence (cs : List Char) : Bool :=
  match cs with
  | a :: b :: c :: _ => a = tickChar && b = tickChar && c = tickChar
  | _ => false

/-- `re.sub(r'^\s*```[a-zA-Z0-9]*\s*', '', txt)` on an already-stripped
string: drop an opening fence, its language tag and following whitespace. -/
def stripLeadingFence (s : String) : String :=
  if startsWithFence s.data then
    String.mk (((s.data.drop 3).dropWhile Char.isAlphanum).dropWhile isPySpace)
  else s

/-- `re.sub(r'\s*```\s*$', '', txt)` on a string with no trailing
whitespace: drop a closing fence and the whitespace before it. -/
def stripTrailingFence (s : String) : String :=
  if startsWithFence s.data.reverse then
    String.mk (((s.data.reverse.drop 3).dropWhile isPySpace).reverse)
  else s

/-- Find the first occurrence of three consecutive backquotes; returns the
characters before it and the characters after it. -/
def findTicks3 : List Char → Option (List Char × List Char)
  | [] => none
  | c :: cs =>
    if startsWithFence (c :: cs) then some ([], cs.drop 2)
    else
      match findTicks3 cs with
      | none => none
      | some (b, a) => some (c :: b, a)

/-- Python `str.strip('`')`: drop backquotes from both ends. -/
def stripTicksEnds (cs : List Char) : List Char :=
  dropTrail (fun c => c = tickChar) (cs.dropWhile (fun c => c = tickChar))

/-- Fuel-driven body of `strip_code_fences` (`src/app.py` lines 211-217):
each non-overlapping ```-delimited block is replaced by the whole match
stripped of leading and trailing backquotes.  The fuel only bounds the
recursion; `cs.length` steps always suffice. -/
def strip_code_fences_aux : Nat → List Char → List Char
  | 0, cs => cs
  | fuel + 1, cs =>
    match findTicks3 cs with
    | none => cs
    | some (before, rest1) =>
      match findTicks3 rest1 with
      | none => cs
      | some (mid, rest2) =>
        before ++
          stripTicksEnds
            (tickChar :: tickChar :: tickChar :: (mid ++ [tickChar, tickChar, tickChar])) ++
          strip_code_fences_aux fuel rest2

/-- `src/app.py` lines 211-217. -/
def strip_code_fences (s : String) : String :=
  String.mk (strip_code_fences_aux s.data.length s.data)

/-- A Python argument that is either a string or some non-string value
(`None`, a number, ...); the parsers guard on `isinstance(..., str)`. -/
inductive PyInput where
  | pyStr (s : String)
  | nonString

namespace Evaluator

/-- `src/evaluator.py` lines 116-120: index of the first line containing
both a vertical bar and the case-sensitive substring "Score". -/
def header_scan : List String → Option Nat
  | [] => none
  | l :: rest =>
    if l.data.contains '|' && strContains l "Score" then some 0
    else (header_scan rest).map (· + 1)

/-- `src/evaluator.py` lines 103-156. -/
def parse_markdown_table (table_string : PyInput) (filename : String) :
    List (String × String) :=
  match table_string with
  | .nonString => [("filename", filename), ("error", "No table string provided.")]
  | .pyStr s =>
    let txt := trimS s
    if txt = "" then [("filename", filename), ("error", "Empty string.")]
    else
      let txt := stripTrailingFence (stripLeadingFence txt)
      let lines := linesOf txt.data
      match header_scan lines with
      | none => [("filename", filename), ("error", "No valid markdown table found.")]
      | some header_idx =>
        if lines.length ≤ header_idx + 2 then
          [("filename", filename), ("error", "No valid markdown table found.")]
        else
          let header_line := lines.getD header_idx ""
          let data_line :=
            if header_idx + 2 < lines.length then lines.getD (header_idx + 2) "" else ""
          rows_to_mapped header_line data_line filename

end Evaluator

namespace App

/-- `re.fullmatch(r"[|\s:-]+", sep)`: non-empty, only bars, dashes, colons
and whitespace. -/
def isSepLine (s : String) : Bool :=
  !s.data.isEmpty && s.data.all (fun c => c = '|' || c = '-' || c = ':' || isPySpace c)

/-- The `while j < len(lines) and "|" in lines[j]` loop of
`find_first_markdown_table_block`. -/
def scanEnd (lines : List String) (j : Nat) : Nat :=
  j + ((lines.drop j).takeWhile (fun l => l.data.contains '|')).length

/-- Fuel-driven body of the `for i in range(len(lines) - 2)` scan of
`src/app.py` lines 220-231; fuel `lines.length` always suffices. -/
def find_first_markdown_table_block_aux (lines : List String) :
    Nat → Nat → Option (Nat × Nat)
  | 0, _ => none
  | fuel + 1, i =>
    if i < lines.length - 2 then
      if (trimS (lines.getD i "")).data.contains '|' &&
          isSepLine (trimS (lines.getD (i + 1) "")) then
        some (i, scanEnd lines (i + 2))
      else find_first_markdown_table_block_aux lines fuel (i + 1)
    else none

/-- `src/app.py` lines 220-231. -/
def find_first_markdown_table_block (lines : List String) : Option (Nat × Nat) :=
  find_first_markdown_table_block_aux lines lines.length 0

/-- `src/app.py` lines 234-292. -/
def parse_markdown_table (table_string : PyInput) (filename : String) :
    List (String × String) :=
  match table_string with
  | .nonString => [("filename", filename), ("error", "No table string provided.")]
  | .pyStr s =>
    let txt := trimS s
    if txt = "" then [("filename", filename), ("error", "Empty string.")]
    else
      let txt := strip_code_fences (stripTrailingFence (stripLeadingFence txt))
      let lines := linesOf txt.data
      match find_first_markdown_table_block lines with
      | none =>
        if 3 ≤ lines.length ∧ (lines.getD 0 "").data.contains '|' = true ∧
            (lines.getD 2 "").data.contains '|' = true then
          rows_to_mapped (lines.getD 0 "") (lines.getD 2 "") filename
        else [("filename", filename), ("error", "No markdown table found.")]
      | some (start, e) =>
        let header_line := lines.getD start ""
        let data_line := if start + 2 < e then lines.getD (start + 2) "" else ""
        rows_to_mapped header_line data_line filename

end App

/-- Sanity check of the embedding: the app parser accepts a bar-line whose
third line has no bar, and returns an empty data row for it. -/
theorem app_parse_barless_data_row :
    App.parse_markdown_table (.pyStr "Score|\n---\nhello") "f" =
      [("filename", "f"), ("Score", ""), ("Fit", ""), ("Rationale", ""),
       ("Matched Skills", ""), ("Missing Skills", ""), ("Top Qualifications", ""),
       ("Quantifiable Achievements", "")] := by decide

/-- Sanity check of the embedding: the evaluator parser reads a plain
two-column table. -/
theorem evaluator_parse_two_columns :
    Evaluator.parse_markdown_table
        (.pyStr "| Score | Fit |\n|---|---|\n| 9 | High |") "f" =
      [("filename", "f"), ("Score", "9"), ("Fit", "High"), ("Rationale", ""),
       ("Matched Skills", ""), ("Missing Skills", ""), ("Top Qualifications", ""),
       ("Quantifiable Achievements", "")] := by decide

/-- Sanity check of the embedding: the app parser strips a code fence
before reading the table. -/
theorem app_parse_fenced_table :
    App.parse_markdown_table
        (.pyStr "```markdown\n| Score | Fit |\n|---|---|\n| 9 | High |\n```") "f" =
      [("filename", "f"), ("Score", "9"), ("Fit", "High"), ("Rationale", ""),
       ("Matched Skills", ""), ("Missing Skills", ""), ("Top Qualifications", ""),
       ("Quantifiable Achievements", "")] := by decide

/-! ### Substring and sublist lemmas about the string primitives -/

/-- `isSubstrL` decides contiguous-substring containment. -/
theorem isSubstrL_infix_iff (needle : List Char) :
    ∀ hay : List Char, isSubstrL needle hay = true ↔ needle <:+: hay := by
  intro hay
  induction hay with
  | nil =>
    simp [isSubstrL, List.isEmpty_iff, List.infix_nil]
  | cons c rest ih =>
    simp only [isSubstrL, Bool.or_eq_true, List.isPrefixOf_iff_prefix, ih,
      List.infix_cons_iff]

/-- `dropTrail` yields a list-prefix of its input. -/
theorem dropTrail_prefix_self (p : Char → Bool) (cs : List Char) : dropTrail p cs <+: cs := by
  unfold dropTrail
  have h : cs.reverse.dropWhile p <:+ cs.reverse := List.dropWhile_suffix p
  have h2 : (cs.reverse.dropWhile p).reverse <+: cs.reverse.reverse :=
    List.reverse_prefix.mpr (by simpa using h)
  simpa using h2

/-- `trimChars` yields a sublist of its input. -/
theorem trimChars_sublist (cs : List Char) : List.Sublist (trimChars cs) cs := by
  unfold trimChars
  exact ((dropTrail_prefix_self isPySpace _).sublist).trans
    (List.dropWhile_suffix isPySpace).sublist

/-- `trimChars` yields an infix of its input. -/
theorem trimChars_infix (cs : List Char) : trimChars cs <:+: cs := by
  unfold trimChars
  exact ((dropTrail_prefix_self isPySpace _).isInfix).trans
    (List.dropWhile_suffix isPySpace).isInfix

/-- `stripLeadingFence` yields a list-suffix of its input. -/
theorem stripLeadingFence_suffix (s : String) :
    (stripLeadingFence s).data <:+ s.data := by
  unfold stripLeadingFence
  split_ifs with h
  · show ((s.data.drop 3).dropWhile Char.isAlphanum).dropWhile isPySpace <:+ s.data
    exact (List.dropWhile_suffix _).trans ((List.dropWhile_suffix _).trans
      (List.drop_suffix 3 s.data))
  · exact List.suffix_rfl

/-- `stripTrailingFence` yields a list-prefix of its input. -/
theorem stripTrailingFence_prefix_self (s : String) :
    (stripTrailingFence s).data <+: s.data := by
  unfold stripTrailingFence
  split_ifs with h
  · show ((s.data.reverse.drop 3).dropWhile isPySpace).reverse <+: s.data
    have h1 : (s.data.reverse.drop 3).dropWhile isPySpace <:+ s.data.reverse :=
      (List.dropWhile_suffix _).trans (List.drop_suffix 3 _)
    have h2 := List.reverse_prefix.mpr (by simpa using h1)
    simpa using h2
  · exact List.prefix_rfl

/-- The evaluator parser's preprocessed text is an infix of the raw input. -/
theorem eval_preprocess_infix_self (s : String) :
    (stripTrailingFence (stripLeadingFence (trimS s))).data <:+: s.data := by
  refine ((stripTrailingFence_prefix_self _).isInfix).trans ?_
  refine ((stripLeadingFence_suffix _).isInfix).trans ?_
  exact trimChars_infix s.data

/-- `findTicks3` decomposes its input around the first triple backquote. -/
theorem findTicks3_eq (cs : List Char) :
    ∀ b a, findTicks3 cs = some (b, a) →
      cs = b ++ tickChar :: tickChar :: tickChar :: a := by
  induction cs with
  | nil => intro b a h; simp [findTicks3] at h
  | cons c rest ih =>
    intro b a h
    unfold findTicks3 at h
    split_ifs at h with hf
    · obtain ⟨hb, ha⟩ := Prod.mk.injEq .. ▸ (Option.some.injEq .. ▸ h)
      unfold startsWithFence at hf
      match rest, hf with
      | d :: e :: rest', hf =>
        simp only [Bool.and_eq_true, decide_eq_true_eq] at hf
        obtain ⟨⟨h1, h2⟩, h3⟩ := hf
        subst h1; subst h2; subst h3
        simp at hb ha
        subst hb; subst ha
        simp
    · revert h
      cases hrec : findTicks3 rest with
      | none => intro h; exact absurd h (by simp)
      | some pr =>
        intro h
        obtain ⟨b', a'⟩ := pr
        simp only [Option.some.injEq, Prod.mk.injEq] at h
        obtain ⟨hb, ha⟩ := h
        subst hb; subst ha
        rw [ih b' a' hrec]
        simp

/-- `stripTicksEnds` yields a sublist. -/
theorem stripTicksEnds_sublist (cs : List Char) : List.Sublist (stripTicksEnds cs) cs := by
  unfold stripTicksEnds
  exact ((dropTrail_prefix_self _ _).sublist).trans (List.dropWhile_suffix _).sublist

/-- `strip_code_fences` yields a sublist of its input, at every fuel. -/
theorem strip_code_fences_aux_sublist (fuel : Nat) :
    ∀ cs : List Char, List.Sublist (strip_code_fences_aux fuel cs) cs := by
  induction fuel with
  | zero => intro cs; exact List.Sublist.refl cs
  | succ fuel ih =>
    intro cs
    unfold strip_code_fences_aux
    cases h1 : findTicks3 cs with
    | none => dsimp only; exact List.Sublist.refl cs
    | some pr1 =>
      obtain ⟨before, rest1⟩ := pr1
      cases h2 : findTicks3 rest1 with
      | none =>
        dsimp only
        rw [h2]
      | some pr2 =>
        obtain ⟨mid, rest2⟩ := pr2
        have hcs := findTicks3_eq cs before rest1 h1
        have hrest := findTicks3_eq rest1 mid rest2 h2
        have hsh : (tickChar :: tickChar :: tickChar ::
              (mid ++ tickChar :: tickChar :: tickChar :: rest2)) =
            (tickChar :: tickChar :: tickChar ::
              (mid ++ [tickChar, tickChar, tickChar])) ++ rest2 := by
          simp
        dsimp only
        rw [h2]
        dsimp only
        rw [hcs, hrest, hsh, ← List.append_assoc]
        exact List.Sublist.append
          (List.Sublist.append (List.Sublist.refl before) (stripTicksEnds_sublist _))
          (ih rest2)

/-- The app parser's preprocessed text is a sublist of the raw input. -/
theorem app_preprocess_sublist (s : String) :
    List.Sublist (strip_code_fences (stripTrailingFence (stripLeadingFence (trimS s)))).data
      s.data := by
  refine (strip_code_fences_aux_sublist _ _).trans ?_
  exact (eval_preprocess_infix_self s).sublist

/-- The first group produced by `splitPAux` is a prefix of the input. -/
theorem splitPAux_fst_prefix_self (p : Char → Bool) :
    ∀ cs : List Char, (splitPAux p cs).1 <+: cs := by
  intro cs
  induction cs with
  | nil => simp [splitPAux]
  | cons c rest ih =>
    unfold splitPAux
    dsimp only
    split_ifs with h
    · simp
    · obtain ⟨t, ht⟩ := ih
      exact ⟨t, by simp [ht]⟩

/-- Every later group produced by `splitPAux` is an infix of the input. -/
theorem splitPAux_snd_infix (p : Char → Bool) :
    ∀ cs : List Char, ∀ g ∈ (splitPAux p cs).2, g <:+: cs := by
  intro cs
  induction cs with
  | nil => simp [splitPAux]
  | cons c rest ih =>
    intro g hg
    unfold splitPAux at hg
    dsimp only at hg
    split_ifs at hg with h
    · simp only [List.mem_cons] at hg
      rcases hg with hg | hg
      · subst hg
        exact ((splitPAux_fst_prefix_self p rest).isInfix).trans (List.infix_cons List.infix_rfl)
      · exact (ih g hg).trans (List.infix_cons List.infix_rfl)
    · exact (ih g hg).trans (List.infix_cons List.infix_rfl)

/-- Every group of `groupsBy` is an infix of the input. -/
theorem groupsBy_infix_self (p : Char → Bool) (cs : List Char) :
    ∀ g ∈ groupsBy p cs, g <:+: cs := by
  intro g hg
  unfold groupsBy at hg
  simp only [List.mem_cons] at hg
  rcases hg with hg | hg
  · subst hg
    exact (splitPAux_fst_prefix_self p cs).isInfix
  · exact splitPAux_snd_infix p cs g hg

/-- Every line produced by `linesOf` is (as a character list) an infix of
the input. -/
theorem linesOf_infix_self (cs : List Char) :
    ∀ l ∈ linesOf cs, l.data <:+: cs := by
  intro l hl
  unfold linesOf at hl
  simp only [List.mem_map, List.mem_filter] at hl
  obtain ⟨g, ⟨hg, -⟩, hdef⟩ := hl
  subst hdef
  show dropTrail isPySpace g <:+: cs
  exact ((dropTrail_prefix_self _ g).isInfix).trans (groupsBy_infix_self _ cs g hg)

/-! ### C9: non-string input -/

/-- C9: both parsers answer any non-string table argument (e.g. `None` or a
number) with the `{filename, error: "No table string provided."}` mapping
and no exception: totality extends beyond string inputs. -/
theorem c9_nonstring_input (f : String) :
    Evaluator.parse_markdown_table .nonString f =
      [("filename", f), ("error", "No table string provided.")] ∧
    App.parse_markdown_table .nonString f =
      [("filename", f), ("error", "No table string provided.")] :=
  ⟨rfl, rfl⟩

/-! ### C8: the evaluator's case-sensitive "Score" requirement -/

/-- `header_scan` finds nothing iff no line passes its test. -/
theorem header_scan_eq_none (L : List String)
    (h : ∀ l ∈ L, ¬(l.data.contains '|' && strContains l "Score") = true) :
    Evaluator.header_scan L = none := by
  induction L with
  | nil => rfl
  | cons l rest ih =>
    unfold Evaluator.header_scan
    rw [if_neg (h l (by simp))]
    rw [ih (fun x hx => h x (by simp [hx]))]
    rfl

/-- C8: if the case-sensitive substring "Score" occurs nowhere in the input
string — for instance a well-formed table whose headers are all
lower-case — the evaluator parser returns the error-tagged result. -/
theorem c8_score_case_sensitivity (s f : String)
    (h : strContains s "Score" = false) :
    ∃ msg, ("error", msg) ∈ Evaluator.parse_markdown_table (.pyStr s) f := by
  unfold Evaluator.parse_markdown_table
  dsimp only
  split_ifs with h0
  · exact ⟨"Empty string.", by simp⟩
  · have hnone : Evaluator.header_scan
        (linesOf (stripTrailingFence (stripLeadingFence (trimS s))).data) = none := by
      apply header_scan_eq_none
      intro l hl
      have hinf : l.data <:+: s.data :=
        (linesOf_infix_self _ l hl).trans (eval_preprocess_infix_self s)
      intro hc
      simp only [Bool.and_eq_true] at hc
      have hsc : strContains l "Score" = true := hc.2
      rw [strContains, isSubstrL_infix_iff] at hsc
      have : isSubstrL "Score".data s.data = true :=
        (isSubstrL_infix_iff _ _).mpr (hsc.trans hinf)
      rw [strContains] at h
      rw [h] at this
      exact Bool.false_ne_true this
    rw [hnone]
    exact ⟨"No valid markdown table found.", by simp⟩

/-- Witness for `c8_score_case_sensitivity`: an all-lower-case table is
present, yet the parser reports an error. -/
theorem c8_score_case_sensitivity_witness :
    strContains "| score | fit |\n|---|---|\n| 9 | high |" "Score" = false ∧
    ∃ msg, ("error", msg) ∈ Evaluator.parse_markdown_table
      (.pyStr "| score | fit |\n|---|---|\n| 9 | high |") "cv.pdf" :=
  ⟨by decide,
   c8_score_case_sensitivity "| score | fit |\n|---|---|\n| 9 | high |" "cv.pdf"
     (by decide)⟩

/-! ### C6: graceful failure of the parsers -/

/-- Number of non-blank lines of a character stream, computed by a direct
scan; the flag records whether the current line has already been counted. -/
def countNonBlank : List Char → Bool → Nat
  | [], _ => 0
  | c :: cs, inLine =>
    if isBreakChar c then countNonBlank cs false
    else if goodChar c && !inLine then 1 + countNonBlank cs true
    else countNonBlank cs inLine

/-- Number of non-blank lines of a string (the claim-side counterpart of
the `if ln.strip()` filter in both parsers). -/
def nonBlankLines (s : String) : Nat := countNonBlank s.data false

theorem countNonBlank_cons_break {c : Char} {cs : List Char} {b : Bool}
    (h : isBreakChar c = true) :
    countNonBlank (c :: cs) b = countNonBlank cs false := by
  conv_lhs => unfold countNonBlank
  rw [if_pos h]

theorem countNonBlank_cons_good {c : Char} {cs : List Char}
    (hb : isBreakChar c = false) (hg : goodChar c = true) :
    countNonBlank (c :: cs) false = 1 + countNonBlank cs true := by
  conv_lhs => unfold countNonBlank
  rw [if_neg (by simp [hb]), if_pos (by simp [hg])]

theorem countNonBlank_cons_other {c : Char} {cs : List Char} {b : Bool}
    (hb : isBreakChar c = false) (h2 : (goodChar c && !b) = false) :
    countNonBlank (c :: cs) b = countNonBlank cs b := by
  conv_lhs => unfold countNonBlank
  rw [if_neg (by simp [hb]), if_neg (by simp [h2])]

/-- Counting with the flag set counts at most as much, and at most one
less, than counting with it clear. -/
theorem countNonBlank_flag : ∀ cs : List Char,
    countNonBlank cs true ≤ countNonBlank cs false ∧
    countNonBlank cs false ≤ countNonBlank cs true + 1 := by
  intro cs
  induction cs with
  | nil => exact ⟨le_rfl, by decide⟩
  | cons c cs ih =>
    by_cases hb : isBreakChar c = true
    · rw [countNonBlank_cons_break hb, countNonBlank_cons_break hb]
      omega
    · rw [Bool.not_eq_true] at hb
      by_cases hg : goodChar c = true
      · rw [countNonBlank_cons_good hb hg,
          countNonBlank_cons_other hb (by simp [hg])]
        omega
      · rw [Bool.not_eq_true] at hg
        rw [countNonBlank_cons_other hb (by simp [hg]),
          countNonBlank_cons_other hb (by simp [hg])]
        exact ih

/-- Prepending a character cannot decrease the non-blank line count, at
either flag. -/
theorem countNonBlank_cons_le (c : Char) (cs : List Char) (b : Bool) :
    countNonBlank cs b ≤ countNonBlank (c :: cs) b := by
  by_cases hb : isBreakChar c = true
  · rw [countNonBlank_cons_break hb]
    cases b
    · exact le_rfl
    · exact (countNonBlank_flag cs).1
  · rw [Bool.not_eq_true] at hb
    by_cases hg : goodChar c = true
    · cases b
      · rw [countNonBlank_cons_good hb hg]
        have := (countNonBlank_flag cs).2
        omega
      · rw [countNonBlank_cons_other hb (by simp [hg])]
    · rw [Bool.not_eq_true] at hg
      rw [countNonBlank_cons_other hb (by simp [hg])]

/-- Dropping characters (any sublist) cannot increase the non-blank line
count. -/
theorem countNonBlank_sublist {t s : List Char} (h : List.Sublist t s) :
    ∀ b, countNonBlank t b ≤ countNonBlank s b := by
  induction h with
  | slnil => intro b; exact le_rfl
  | cons c _ ih =>
    intro b
    exact le_trans (ih b) (countNonBlank_cons_le c _ b)
  | cons₂ c _ ih =>
    intro b
    by_cases hb : isBreakChar c = true
    · rw [countNonBlank_cons_break hb, countNonBlank_cons_break hb]
      exact ih false
    · rw [Bool.not_eq_true] at hb
      by_cases hg : goodChar c = true
      · cases b
        · rw [countNonBlank_cons_good hb hg, countNonBlank_cons_good hb hg]
          have := ih true
          omega
        · rw [countNonBlank_cons_other hb (by simp [hg]),
            countNonBlank_cons_other hb (by simp [hg])]
          exact ih true
      · rw [Bool.not_eq_true] at hg
        rw [countNonBlank_cons_other hb (by simp [hg]),
          countNonBlank_cons_other hb (by simp [hg])]
        exact ih b

theorem splitPAux_cons_pos {p : Char → Bool} {c : Char} {cs : List Char} (h : p c = true) :
    splitPAux p (c :: cs) = ([], (splitPAux p cs).1 :: (splitPAux p cs).2) := by
  conv_lhs => unfold splitPAux
  dsimp only
  rw [if_pos h]

theorem splitPAux_cons_neg {p : Char → Bool} {c : Char} {cs : List Char} (h : p c = false) :
    splitPAux p (c :: cs) = (c :: (splitPAux p cs).1, (splitPAux p cs).2) := by
  conv_lhs => unfold splitPAux
  dsimp only
  rw [if_neg (by simp [h])]

/-- The scan count agrees with the group-and-filter count used by
`linesOf`. -/
theorem countNonBlank_eq : ∀ cs : List Char,
    countNonBlank cs false =
      ((groupsBy isBreakChar cs).filter (fun g => g.any goodChar)).length ∧
    countNonBlank cs true =
      ((splitPAux isBreakChar cs).2.filter (fun g => g.any goodChar)).length := by
  intro cs
  induction cs with
  | nil => exact ⟨rfl, rfl⟩
  | cons c cs ih =>
    obtain ⟨ih1, ih2⟩ := ih
    by_cases hb : isBreakChar c = true
    · have hg : goodChar c = false := by
        simp [goodChar, isPySpace, hb]
      constructor
      · rw [countNonBlank_cons_break hb, ih1]
        unfold groupsBy
        rw [splitPAux_cons_pos hb]
        simp
      · rw [countNonBlank_cons_break hb, ih1]
        unfold groupsBy
        rw [splitPAux_cons_pos hb]
    · rw [Bool.not_eq_true] at hb
      by_cases hg : goodChar c = true
      · constructor
        · rw [countNonBlank_cons_good hb hg, ih2]
          unfold groupsBy
          rw [splitPAux_cons_neg hb]
          simp [List.filter_cons, hg]
          omega
        · rw [countNonBlank_cons_other hb (by simp [hg]), ih2]
          rw [splitPAux_cons_neg hb]
      · rw [Bool.not_eq_true] at hg
        constructor
        · rw [countNonBlank_cons_other hb (by simp [hg]), ih1]
          unfold groupsBy
          rw [splitPAux_cons_neg hb]
          simp [List.filter_cons, List.any_cons, hg]
          split_ifs <;> simp
        · rw [countNonBlank_cons_other hb (by simp [hg]), ih2]
          rw [splitPAux_cons_neg hb]

/-- The number of lines the parsers work with is the non-blank line count
of the preprocessed text. -/
theorem linesOf_length (cs : List Char) :
    (linesOf cs).length = countNonBlank cs false := by
  unfold linesOf
  rw [List.length_map, (countNonBlank_eq cs).1]

/-- A sublist with no vertical bar stays bar-free. -/
theorem contains_bar_false {t s : List Char} (hsub : List.Sublist t s)
    (h : s.contains '|' = false) : t.contains '|' = false := by
  simp only [List.contains, List.elem_eq_mem, decide_eq_false_iff_not] at h ⊢
  exact fun ht => h (hsub.subset ht)

theorem getD_mem_of_lt {L : List String} {i : Nat} (h : i < L.length) :
    L.getD i "" ∈ L := by
  simp only [List.getD_eq_getElem?_getD, List.getElem?_eq_getElem h, Option.getD_some]
  exact List.getElem_mem h

theorem rows_to_mapped_lookup_filename (h d f : String) :
    List.lookup "filename" (rows_to_mapped h d f) = some f := rfl

/-- `header_scan` only returns indices inside the list. -/
theorem header_scan_lt (L : List String) :
    ∀ i, Evaluator.header_scan L = some i → i < L.length := by
  induction L with
  | nil => intro i h; exact absurd h (by simp [Evaluator.header_scan])
  | cons l rest ih =>
    intro i h
    unfold Evaluator.header_scan at h
    split_ifs at h with hc
    · simp only [Option.some.injEq] at h
      simp only [List.length_cons]
      omega
    · cases hr : Evaluator.header_scan rest with
      | none => rw [hr] at h; exact absurd h (by simp)
      | some j =>
        rw [hr] at h
        simp only [Option.map_some', Option.some.injEq] at h
        have := ih j hr
        simp only [List.length_cons]
        omega

/-- The app block scan yields nothing once the index leaves the scan
range. -/
theorem find_block_aux_none_short (lines : List String) (fuel i : Nat)
    (h : ¬ i < lines.length - 2) :
    App.find_first_markdown_table_block_aux lines fuel i = none := by
  cases fuel with
  | zero => rfl
  | succ fuel =>
    conv_lhs => unfold App.find_first_markdown_table_block_aux
    rw [if_neg h]

/-- The app block scan yields nothing when no line contains a vertical
bar. -/
theorem find_block_aux_nobar (lines : List String)
    (hno : ∀ l ∈ lines, (trimS l).data.contains '|' = false) :
    ∀ fuel i, App.find_first_markdown_table_block_aux lines fuel i = none := by
  intro fuel
  induction fuel with
  | zero => intro i; rfl
  | succ fuel ih =>
    intro i
    by_cases h : i < lines.length - 2
    · conv_lhs => unfold App.find_first_markdown_table_block_aux
      rw [if_pos h]
      have hmem : lines.getD i "" ∈ lines :=
        getD_mem_of_lt (show i < lines.length by omega)
      have hcond : ¬((trimS (lines.getD i "")).data.contains '|' &&
          App.isSepLine (trimS (lines.getD (i + 1) ""))) = true := by
        intro hcontra
        rw [Bool.and_eq_true] at hcontra
        obtain ⟨hb, -⟩ := hcontra
        rw [hno _ hmem] at hb
        exact Bool.false_ne_true hb
      rw [if_neg hcond, ih (i + 1)]
    · exact find_block_aux_none_short lines _ i h

/-- C6: over every input — non-string values included — both parsers return
a mapping carrying the filename, and on the enumerated failure inputs
(fewer than three non-blank lines, hence also the empty string, or no
vertical-bar character at all) they return an `error`-tagged mapping; no
code path can raise, the functions being total over `PyInput`. -/
theorem c6_parser_graceful_failure (t : PyInput) (f : String) :
    List.lookup "filename" (Evaluator.parse_markdown_table t f) = some f ∧
    List.lookup "filename" (App.parse_markdown_table t f) = some f ∧
    (∀ s, t = .pyStr s →
      (nonBlankLines s < 3 ∨ s.data.contains '|' = false) →
      (∃ m1, List.lookup "error" (Evaluator.parse_markdown_table t f) = some m1) ∧
      (∃ m2, List.lookup "error" (App.parse_markdown_table t f) = some m2)) := by
  refine ⟨?_, ?_, ?_⟩
  · cases t with
    | nonString => rfl
    | pyStr s =>
      unfold Evaluator.parse_markdown_table
      dsimp only
      cases hh : Evaluator.header_scan
          (linesOf (stripTrailingFence (stripLeadingFence (trimS s))).data) <;>
        dsimp only <;>
        split_ifs <;>
        first
          | rfl
          | exact rows_to_mapped_lookup_filename _ _ _
  · cases t with
    | nonString => rfl
    | pyStr s =>
      unfold App.parse_markdown_table
      dsimp only
      rcases hh : App.find_first_markdown_table_block
          (linesOf (strip_code_fences
            (stripTrailingFence (stripLeadingFence (trimS s)))).data) with - | ⟨st, e⟩ <;>
        dsimp only <;>
        split_ifs <;>
        first
          | rfl
          | exact rows_to_mapped_lookup_filename _ _ _
  · intro s hts hcond
    subst hts
    constructor
    · unfold Evaluator.parse_markdown_table
      dsimp only
      by_cases h0 : trimS s = ""
      · rw [if_pos h0]
        exact ⟨"Empty string.", rfl⟩
      · rw [if_neg h0]
        rcases hcond with hlt | hbar
        · have hlen : (linesOf
              (stripTrailingFence (stripLeadingFence (trimS s))).data).length ≤ 2 := by
            rw [linesOf_length]
            have h1 := countNonBlank_sublist (eval_preprocess_infix_self s).sublist false
            unfold nonBlankLines at hlt
            omega
          cases hh : Evaluator.header_scan
              (linesOf (stripTrailingFence (stripLeadingFence (trimS s))).data) with
          | none => exact ⟨"No valid markdown table found.", rfl⟩
          | some idx =>
            dsimp only
            rw [if_pos (by omega)]
            exact ⟨"No valid markdown table found.", rfl⟩
        · have hnone : Evaluator.header_scan
              (linesOf (stripTrailingFence (stripLeadingFence (trimS s))).data) = none := by
            apply header_scan_eq_none
            intro l hl
            have hsubl : List.Sublist l.data s.data :=
              ((linesOf_infix_self _ l hl).trans (eval_preprocess_infix_self s)).sublist
            have hnb := contains_bar_false hsubl hbar
            intro hcontra
            rw [Bool.and_eq_true] at hcontra
            obtain ⟨hb, -⟩ := hcontra
            rw [hnb] at hb
            exact Bool.false_ne_true hb
          rw [hnone]
          exact ⟨"No valid markdown table found.", rfl⟩
    · unfold App.parse_markdown_table
      dsimp only
      by_cases h0 : trimS s = ""
      · rw [if_pos h0]
        exact ⟨"Empty string.", rfl⟩
      · rw [if_neg h0]
        have hsub : List.Sublist
            (strip_code_fences (stripTrailingFence (stripLeadingFence (trimS s)))).data
            s.data := app_preprocess_sublist s
        rcases hcond with hlt | hbar
        · have hlen : (linesOf
              (strip_code_fences
                (stripTrailingFence (stripLeadingFence (trimS s)))).data).length ≤ 2 := by
            rw [linesOf_length]
            have h1 := countNonBlank_sublist hsub false
            unfold nonBlankLines at hlt
            omega
          have hnone : App.find_first_markdown_table_block
              (linesOf (strip_code_fences
                (stripTrailingFence (stripLeadingFence (trimS s)))).data) = none := by
            unfold App.find_first_markdown_table_block
            exact find_block_aux_none_short _ _ 0 (by omega)
          rw [hnone]
          dsimp only
          rw [if_neg (by rintro ⟨h3, -, -⟩; omega)]
          exact ⟨"No markdown table found.", rfl⟩
        · have hraw : ∀ l ∈ linesOf
              (strip_code_fences (stripTrailingFence (stripLeadingFence (trimS s)))).data,
              l.data.contains '|' = false := by
            intro l hl
            exact contains_bar_false ((linesOf_infix_self _ l hl).sublist.trans hsub) hbar
          have hnone : App.find_first_markdown_table_block
              (linesOf (strip_code_fences
                (stripTrailingFence (stripLeadingFence (trimS s)))).data) = none := by
            unfold App.find_first_markdown_table_block
            apply find_block_aux_nobar
            intro l hl
            exact contains_bar_false (trimChars_sublist l.data) (hraw l hl)
          rw [hnone]
          dsimp only
          rw [if_neg (by
            rintro ⟨h3, hb0, -⟩
            have hmem := @getD_mem_of_lt
              (linesOf (strip_code_fences
                (stripTrailingFence (stripLeadingFence (trimS s)))).data)
              0 (by omega)
            rw [hraw _ hmem] at hb0
            exact Bool.false_ne_true hb0)]
          exact ⟨"No markdown table found.", rfl⟩

/-- Witness for `c6_parser_graceful_failure` at the empty string. -/
theorem c6_parser_graceful_failure_witness :
    ((PyInput.pyStr "" = PyInput.pyStr "") ∧
      (nonBlankLines "" < 3 ∨ ("" : String).data.contains '|' = false)) ∧
    ((∃ m1, List.lookup "error"
        (Evaluator.parse_markdown_table (.pyStr "") "cv.pdf") = some m1) ∧
      (∃ m2, List.lookup "error"
        (App.parse_markdown_table (.pyStr "") "cv.pdf") = some m2)) :=
  ⟨⟨rfl, by decide⟩,
   (c6_parser_graceful_failure (.pyStr "") "cv.pdf").2.2 "" rfl (by decide)⟩

/-! ### C5: how the app parser locates the table -/

/-- Claim-side separator test, following the claim's words: a line
consisting only of vertical bars, dashes, colons, and whitespace. -/
def isSepSpec (s : String) : Bool :=
  !s.data.isEmpty && s.data.all (fun c => c = '|' || c = '-' || c = ':' || isPySpace c)

/-- Claim-side locator, following the claim C5 as stated: the first line
containing a vertical bar that is followed by a separator line. -/
def spec_locate_aux (lines : List String) : Nat → Nat → Option Nat
  | 0, _ => none
  | fuel + 1, i =>
    if i + 1 < lines.length then
      if (lines.getD i "").data.contains '|' && isSepSpec (lines.getD (i + 1) "") then
        some i
      else spec_locate_aux lines fuel (i + 1)
    else none

/-- The markdown-table parser as described word-for-word by claim C5
(shared preprocessing and row mapping, locating by `spec_locate_aux`, the
row immediately after the separator taken as the data row). -/
def parse_markdown_table_spec_c5 (table_string : PyInput) (filename : String) :
    List (String × String) :=
  match table_string with
  | .nonString => [("filename", filename), ("error", "No table string provided.")]
  | .pyStr s =>
    let txt := trimS s
    if txt = "" then [("filename", filename), ("error", "Empty string.")]
    else
      let txt := strip_code_fences (stripTrailingFence (stripLeadingFence txt))
      let lines := linesOf txt.data
      match spec_locate_aux lines lines.length 0 with
      | none =>
        if 3 ≤ lines.length ∧ (lines.getD 0 "").data.contains '|' = true ∧
            (lines.getD 2 "").data.contains '|' = true then
          rows_to_mapped (lines.getD 0 "") (lines.getD 2 "") filename
        else [("filename", filename), ("error", "No markdown table found.")]
      | some i =>
        rows_to_mapped (lines.getD i "") (lines.getD (i + 2) "") filename

/-- Amended locator: as the claim, but the pair must leave room for a data
row (at least one line after the separator). -/
def amended_locate_aux (lines : List String) : Nat → Nat → Option Nat
  | 0, _ => none
  | fuel + 1, i =>
    if i + 2 < lines.length then
      if (lines.getD i "").data.contains '|' && isSepSpec (lines.getD (i + 1) "") then
        some i
      else amended_locate_aux lines fuel (i + 1)
    else none

/-- The markdown-table parser as described by the amended claim C5: locate
the first bar-containing line followed by a separator line with at least
one further line after it; the row immediately after the separator is the
data row when it contains a vertical bar, otherwise the data row is empty;
fall back to the first three non-empty lines when no such pair exists, and
return the error result only when that fallback also fails. -/
def parse_markdown_table_amended_c5 (table_string : PyInput) (filename : String) :
    List (String × String) :=
  match table_string with
  | .nonString => [("filename", filename), ("error", "No table string provided.")]
  | .pyStr s =>
    let txt := trimS s
    if txt = "" then [("filename", filename), ("error", "Empty string.")]
    else
      let txt := strip_code_fences (stripTrailingFence (stripLeadingFence txt))
      let lines := linesOf txt.data
      match amended_locate_aux lines lines.length 0 with
      | none =>
        if 3 ≤ lines.length ∧ (lines.getD 0 "").data.contains '|' = true ∧
            (lines.getD 2 "").data.contains '|' = true then
          rows_to_mapped (lines.getD 0 "") (lines.getD 2 "") filename
        else [("filename", filename), ("error", "No markdown table found.")]
      | some i =>
        rows_to_mapped (lines.getD i "")
          (if (lines.getD (i + 2) "").data.contains '|' then lines.getD (i + 2) "" else "")
          filename

/-- C5 counterexample: on `"Score|\n---\nhello"` the code's parser finds
the header/separator pair but, because the row after the separator
contains no vertical bar, parses an empty data row (Score = ""), while the
claim's algorithm takes "hello" as the data row (Score = "hello"). -/
theorem c5_data_row_counterexample :
    List.lookup "Score"
      (App.parse_markdown_table (.pyStr "Score|\n---\nhello") "f") = some "" ∧
    List.lookup "Score"
      (parse_markdown_table_spec_c5 (.pyStr "Score|\n---\nhello") "f") = some "hello" := by
  constructor
  · decide
  · decide

theorem contains_iff_mem {cs : List Char} {c : Char} :
    cs.contains c = true ↔ c ∈ cs := by
  simp [List.contains, List.elem_eq_mem]

theorem mem_dropWhile_of_not {p : Char → Bool} {c : Char} {cs : List Char}
    (hc : p c = false) (h : c ∈ cs) : c ∈ cs.dropWhile p := by
  rcases List.mem_append.mp
      ((List.takeWhile_append_dropWhile p cs) ▸ h) with h1 | h1
  · have := List.mem_takeWhile_imp h1
    rw [hc] at this
    exact absurd this Bool.false_ne_true
  · exact h1

theorem mem_dropTrail_of_not {p : Char → Bool} {c : Char} {cs : List Char}
    (hc : p c = false) (h : c ∈ cs) : c ∈ dropTrail p cs := by
  unfold dropTrail
  rw [List.mem_reverse]
  exact mem_dropWhile_of_not hc (List.mem_reverse.mpr h)

theorem mem_trimChars_of_not {c : Char} {cs : List Char}
    (hc : isPySpace c = false) (h : c ∈ cs) : c ∈ trimChars cs := by
  unfold trimChars
  exact mem_dropTrail_of_not hc (mem_dropWhile_of_not hc h)

/-- Every line the parsers work with is non-blank. -/
theorem linesOf_nonblank (cs : List Char) :
    ∀ l ∈ linesOf cs, trimS l ≠ "" := by
  intro l hl
  unfold linesOf at hl
  simp only [List.mem_map, List.mem_filter] at hl
  obtain ⟨g, ⟨-, hany⟩, hdef⟩ := hl
  subst hdef
  rw [List.any_eq_true] at hany
  obtain ⟨c, hcg, hgood⟩ := hany
  have hsp : isPySpace c = false := by
    unfold goodChar at hgood
    rw [Bool.not_eq_true'] at hgood
    exact hgood
  intro hcontra
  have hc1 : c ∈ dropTrail isPySpace g := mem_dropTrail_of_not hsp hcg
  have hc2 : c ∈ trimChars (dropTrail isPySpace g) := mem_trimChars_of_not hsp hc1
  have : trimChars (dropTrail isPySpace g) = [] := congrArg String.data hcontra
  rw [this] at hc2
  exact absurd hc2 (List.not_mem_nil c)

/-- Splitting of a list around its trim: the discarded ends are
whitespace. -/
theorem trimChars_decomp (cs : List Char) :
    ∃ a b, cs = a ++ trimChars cs ++ b ∧
      (∀ c ∈ a, isPySpace c = true) ∧ (∀ c ∈ b, isPySpace c = true) := by
  refine ⟨cs.takeWhile isPySpace,
    ((cs.dropWhile isPySpace).reverse.takeWhile isPySpace).reverse, ?_, ?_, ?_⟩
  · unfold trimChars dropTrail
    conv_lhs => rw [← List.takeWhile_append_dropWhile isPySpace cs]
    rw [List.append_assoc]
    congr 1
    conv_lhs => rw [← List.reverse_reverse (cs.dropWhile isPySpace)]
    conv_lhs =>
      rw [← List.takeWhile_append_dropWhile isPySpace
        (cs.dropWhile isPySpace).reverse]
    rw [List.reverse_append]
  · intro c hc
    exact List.mem_takeWhile_imp hc
  · intro c hc
    exact List.mem_takeWhile_imp (List.mem_reverse.mp hc)

/-- A vertical bar survives stripping: the code tests the trimmed line, the
claim the raw line, and the two agree. -/
theorem contains_trim_eq (l : String) :
    (trimS l).data.contains '|' = l.data.contains '|' := by
  cases hc : l.data.contains '|' with
  | false => exact contains_bar_false (trimChars_sublist l.data) hc
  | true =>
    rw [contains_iff_mem] at hc ⊢
    exact mem_trimChars_of_not (by decide) hc

/-- On a non-blank line, the code's separator test on the stripped line
agrees with the claim's separator test on the raw line. -/
theorem isSepLine_trim_eq {l : String} (hnb : trimS l ≠ "") :
    App.isSepLine (trimS l) = isSepSpec l := by
  have htne : trimChars l.data ≠ [] := by
    intro h
    exact hnb (congrArg String.mk h)
  have hlne : l.data ≠ [] := by
    intro h
    apply htne
    rw [h]
    rfl
  unfold App.isSepLine isSepSpec
  have h1 : (trimS l).data.isEmpty = false := by
    simp [trimS, List.isEmpty_iff, htne]
  have h2 : l.data.isEmpty = false := by
    simp [List.isEmpty_iff, hlne]
  rw [h1, h2]
  simp only [Bool.not_false, Bool.true_and]
  by_cases ha : l.data.all (fun c => c = '|' || c = '-' || c = ':' || isPySpace c) = true
  · rw [ha]
    rw [List.all_eq_true] at ha ⊢
    exact fun c hc => ha c ((trimChars_sublist l.data).subset hc)
  · rw [Bool.not_eq_true] at ha
    rw [ha]
    by_contra hcontra
    rw [Bool.not_eq_false] at hcontra
    apply absurd ?_ (ha ▸ Bool.false_ne_true)
    show l.data.all _ = true
    obtain ⟨a, b, hdec, hsa, hsb⟩ := trimChars_decomp l.data
    rw [List.all_eq_true] at hcontra ⊢
    intro c hcmem
    rw [hdec] at hcmem
    rcases List.mem_append.mp hcmem with hm | hm
    · rcases List.mem_append.mp hm with hm2 | hm2
      · simp [hsa c hm2]
      · exact hcontra c hm2
    · simp [hsb c hm]

/-- Whenever the code's block scan succeeds, the index is in scan range and
the end marker is the bar-run end. -/
theorem find_block_aux_some (lines : List String) :
    ∀ fuel i st e, App.find_first_markdown_table_block_aux lines fuel i = some (st, e) →
      st < lines.length - 2 ∧ e = App.scanEnd lines (st + 2) := by
  intro fuel
  induction fuel with
  | zero =>
    intro i st e h
    exact absurd h (by simp [App.find_first_markdown_table_block_aux])
  | succ fuel ih =>
    intro i st e h
    unfold App.find_first_markdown_table_block_aux at h
    split_ifs at h with h1 h2
    · simp only [Option.some.injEq, Prod.mk.injEq] at h
      obtain ⟨hst, he⟩ := h
      subst hst
      exact ⟨h1, he.symm⟩
    · exact ih (i + 1) st e h

/-- The code's block scan and the amended claim's locator agree (on the
non-blank line lists the parsers construct). -/
theorem find_block_fst_eq_amended (lines : List String)
    (hnb : ∀ l ∈ lines, trimS l ≠ "") :
    ∀ fuel i, (App.find_first_markdown_table_block_aux lines fuel i).map Prod.fst =
      amended_locate_aux lines fuel i := by
  intro fuel
  induction fuel with
  | zero => intro i; rfl
  | succ fuel ih =>
    intro i
    conv_lhs => unfold App.find_first_markdown_table_block_aux
    conv_rhs => unfold amended_locate_aux
    by_cases h1 : i < lines.length - 2
    · rw [if_pos h1, if_pos (show i + 2 < lines.length by omega)]
      have hmem1 : lines.getD (i + 1) "" ∈ lines :=
        getD_mem_of_lt (show i + 1 < lines.length by omega)
      rw [contains_trim_eq (lines.getD i ""), isSepLine_trim_eq (hnb _ hmem1)]
      by_cases hc : ((lines.getD i "").data.contains '|' &&
          isSepSpec (lines.getD (i + 1) "")) = true
      · rw [if_pos hc, if_pos hc]
        rfl
      · rw [if_neg hc, if_neg hc]
        exact ih (i + 1)
    · rw [if_neg h1, if_neg (show ¬ i + 2 < lines.length by omega)]
      rfl

/-- One line past the separator, the while-loop end lies strictly beyond
exactly when that line contains a vertical bar. -/
theorem scanEnd_lt_iff (lines : List String) (j : Nat) (hj : j < lines.length) :
    (j < App.scanEnd lines j) ↔ (lines.getD j "").data.contains '|' = true := by
  unfold App.scanEnd
  have hget : lines.getD j "" = lines[j] := by
    simp [List.getD_eq_getElem?_getD, List.getElem?_eq_getElem hj]
  rw [hget, List.drop_eq_getElem_cons hj]
  constructor
  · intro hlt
    by_contra hc
    rw [Bool.not_eq_true] at hc
    rw [List.takeWhile_cons, if_neg (by rw [hc]; exact Bool.false_ne_true)] at hlt
    simp at hlt
  · intro hc
    rw [List.takeWhile_cons, if_pos (by simpa using hc)]
    simp only [List.length_cons]
    omega

/-- C5 (amended): the app parser is exactly the parser described by the
amended claim: it locates the table via the first bar line followed by a
separator line with room for a data row, takes the following row as the
data row only when it contains a vertical bar (else an empty data row),
falls back to the first three non-empty lines when both contain a bar, and
errors only when that also fails. -/
theorem c5_amended_table_locating (t : PyInput) (f : String) :
    App.parse_markdown_table t f = parse_markdown_table_amended_c5 t f := by
  cases t with
  | nonString => rfl
  | pyStr s =>
    unfold App.parse_markdown_table parse_markdown_table_amended_c5
    dsimp only
    by_cases h0 : trimS s = ""
    · rw [if_pos h0, if_pos h0]
    · rw [if_neg h0, if_neg h0]
      have hnb : ∀ l ∈ linesOf (strip_code_fences
          (stripTrailingFence (stripLeadingFence (trimS s)))).data, trimS l ≠ "" :=
        linesOf_nonblank _
      have heq := find_block_fst_eq_amended
        (linesOf (strip_code_fences (stripTrailingFence (stripLeadingFence (trimS s)))).data)
        hnb
        (linesOf (strip_code_fences
          (stripTrailingFence (stripLeadingFence (trimS s)))).data).length 0
      rcases hfb : App.find_first_markdown_table_block
          (linesOf (strip_code_fences
            (stripTrailingFence (stripLeadingFence (trimS s)))).data) with - | ⟨st, e⟩
      · unfold App.find_first_markdown_table_block at hfb
        rw [hfb] at heq
        rw [← heq]
        rfl
      · unfold App.find_first_markdown_table_block at hfb
        obtain ⟨hrange, hend⟩ := find_block_aux_some _ _ 0 st e hfb
        rw [hfb] at heq
        rw [← heq]
        dsimp only [Option.map_some']
        subst hend
        rw [if_congr (scanEnd_lt_iff _ (st + 2) (by omega)) rfl rfl]

/-! ### C7: round-trip through a well-formed seven-column table -/

/-- The seven canonical output column headers. -/
def canonical7 : List String :=
  ["Score", "Fit", "Rationale", "Matched Skills", "Missing Skills",
   "Top Qualifications", "Quantifiable Achievements"]

/-- One rendered cell of a markdown row: ` cell |`. -/
def cellPiece (x : String) : List Char := ' ' :: x.data ++ [' ', '|']

/-- A markdown table row `| a | b | ... |`. -/
def barRow (xs : List String) : String :=
  String.mk ('|' :: (xs.map cellPiece).flatten)

/-- The separator row of the rendered table. -/
def sepRow : String := barRow (List.replicate 7 "---")

/-- A well-formed single-row markdown table: header row, separator row and
data row, rendered from header/cell pairs. -/
def renderTable (P : List (String × String)) : String :=
  String.mk ((barRow (P.map Prod.fst)).data ++ '\n' ::
    (sepRow.data ++ '\n' :: (barRow (P.map Prod.snd)).data))

/-- Well-formedness of one data cell: no vertical bar, no line break, no
backquote, and non-blank content. -/
def cellOK (c : String) : Bool :=
  !c.data.contains '|' && !c.data.any isBreakChar &&
  !c.data.contains tickChar && !(trimS c == "")

/-- The cell paired with a given header. -/
def valueFor (P : List (String × String)) (h : String) : String :=
  ((P.find? (fun kv => kv.1 == h)).map Prod.snd).getD ""

/-- The mapping the claim expects the parser to return: each canonical key
bound to the whitespace-trimmed content of its cell. -/
def buildExpected (P : List (String × String)) (f : String) : List (String × String) :=
  [("filename", f),
   ("Score", trimS (valueFor P "Score")),
   ("Fit", trimS (valueFor P "Fit")),
   ("Rationale", trimS (valueFor P "Rationale")),
   ("Matched Skills", trimS (valueFor P "Matched Skills")),
   ("Missing Skills", trimS (valueFor P "Missing Skills")),
   ("Top Qualifications", trimS (valueFor P "Top Qualifications")),
   ("Quantifiable Achievements", trimS (valueFor P "Quantifiable Achievements"))]

/-- Facts about the canonical header strings, checked by computation. -/
theorem canonical7_facts : ∀ h ∈ canonical7,
    cellOK h = true ∧ trimS h = h ∧ normKey h = h ∧ h ≠ "filename" := by
  decide

theorem canonical7_nodup : canonical7.Nodup := by decide

/-- A character of a rendered row is a bar, a space, or a character of one
of the rendered strings. -/
theorem mem_barRow {c : Char} {xs : List String} (h : c ∈ (barRow xs).data) :
    c = '|' ∨ c = ' ' ∨ ∃ x ∈ xs, c ∈ x.data := by
  have h' : c ∈ '|' :: (xs.map cellPiece).flatten := h
  rcases List.mem_cons.mp h' with h1 | h1
  · exact Or.inl h1
  · rw [List.mem_flatten] at h1
    obtain ⟨pc, hpc, hcpc⟩ := h1
    rw [List.mem_map] at hpc
    obtain ⟨x, hx, hdef⟩ := hpc
    subst hdef
    unfold cellPiece at hcpc
    rcases List.mem_cons.mp hcpc with h2 | h2
    · exact Or.inr (Or.inl h2)
    · rcases List.mem_append.mp h2 with h3 | h3
      · exact Or.inr (Or.inr ⟨x, hx, h3⟩)
      · rcases List.mem_cons.mp h3 with h4 | h4
        · exact Or.inr (Or.inl h4)
        · rcases List.mem_cons.mp h4 with h5 | h5
          · exact Or.inl h5
          · exact absurd h5 (List.not_mem_nil c)

/-- The concatenated cell pieces end with a bar (unless empty). -/
theorem flatten_pieces_ends (xs : List String) :
    (xs.map cellPiece).flatten = [] ∨
      ∃ u, (xs.map cellPiece).flatten = u ++ ['|'] := by
  induction xs with
  | nil => exact Or.inl rfl
  | cons x rest ih =>
    right
    rcases ih with h | ⟨u, hu⟩
    · refine ⟨' ' :: x.data ++ [' '], ?_⟩
      simp [cellPiece, h]
    · refine ⟨cellPiece x ++ u, ?_⟩
      simp only [List.map_cons, List.flatten_cons, hu, List.append_assoc]

/-- A rendered row ends with a bar. -/
theorem barRow_ends (xs : List String) : ∃ u, (barRow xs).data = u ++ ['|'] := by
  unfold barRow
  rcases flatten_pieces_ends xs with h | ⟨u, hu⟩
  · exact ⟨[], by simp [h]⟩
  · exact ⟨'|' :: u, by simp [hu]⟩

/-- Stripping is a no-op on a string that starts and ends with a bar. -/
theorem trimChars_noop_bar {cs : List Char} (hhead : ∃ t, cs = '|' :: t)
    (hlast : ∃ u, cs = u ++ ['|']) : trimChars cs = cs := by
  obtain ⟨t, ht⟩ := hhead
  obtain ⟨u, hu⟩ := hlast
  unfold trimChars
  have h1 : cs.dropWhile isPySpace = cs := by
    rw [ht, List.dropWhile_cons, if_neg (by decide)]
  rw [h1, hu]
  unfold dropTrail
  rw [List.reverse_append]
  simp only [List.reverse_cons, List.reverse_nil, List.nil_append, List.singleton_append]
  rw [List.dropWhile_cons, if_neg (by decide)]
  simp

theorem startsWithFence_false_of_bar (t : List Char) :
    startsWithFence ('|' :: t) = false := by
  cases t with
  | nil => rfl
  | cons b t2 =>
    cases t2 with
    | nil => rfl
    | cons c t3 =>
      have h : decide (('|' : Char) = tickChar) = false := by decide
      simp [startsWithFence, h]

theorem startsWithFence_head {cs : List Char} (h : startsWithFence cs = true) :
    tickChar ∈ cs := by
  match cs, h with
  | a :: b :: c :: rest, h =>
    simp only [startsWithFence, Bool.and_eq_true, decide_eq_true_eq] at h
    obtain ⟨⟨h1, -⟩, -⟩ := h
    subst h1
    simp

theorem findTicks3_none {cs : List Char} (h : tickChar ∉ cs) :
    findTicks3 cs = none := by
  induction cs with
  | nil => rfl
  | cons c rest ih =>
    unfold findTicks3
    rw [if_neg (fun hf => h (startsWithFence_head hf))]
    rw [ih (fun hm => h (List.mem_cons_of_mem c hm))]

theorem strip_code_fences_noop {s : String} (h : tickChar ∉ s.data) :
    strip_code_fences s = s := by
  unfold strip_code_fences
  have haux : ∀ fuel, strip_code_fences_aux fuel s.data = s.data := by
    intro fuel
    cases fuel with
    | zero => rfl
    | succ fuel =>
      unfold strip_code_fences_aux
      rw [findTicks3_none h]
  rw [haux]

theorem dropTrail_append_nonspace {p : Char → Bool} {w : List Char} {c : Char}
    (hc : p c = false) : dropTrail p (w ++ [c]) = w ++ [c] := by
  unfold dropTrail
  rw [List.reverse_append]
  simp only [List.reverse_cons, List.reverse_nil, List.nil_append, List.singleton_append]
  rw [List.dropWhile_cons, if_neg (by simp [hc])]
  simp

theorem dropTrail_append_space {p : Char → Bool} {w : List Char} {c : Char}
    (hc : p c = true) : dropTrail p (w ++ [c]) = dropTrail p w := by
  unfold dropTrail
  rw [List.reverse_append]
  simp only [List.reverse_cons, List.reverse_nil, List.nil_append, List.singleton_append]
  rw [List.dropWhile_cons, if_pos (by simp [hc])]

theorem groupsBy_cons_sep {p : Char → Bool} {c : Char} {cs : List Char} (h : p c = true) :
    groupsBy p (c :: cs) = [] :: groupsBy p cs := by
  unfold groupsBy
  rw [splitPAux_cons_pos h]

theorem groupsBy_append_break (p : Char → Bool) (a : List Char) (c : Char) (b : List Char)
    (ha : ∀ x ∈ a, p x = false) (hc : p c = true) :
    groupsBy p (a ++ c :: b) = a :: groupsBy p b := by
  induction a with
  | nil => exact groupsBy_cons_sep hc
  | cons x a' ih =>
    have hx : p x = false := ha x (by simp)
    have ih' := ih (fun y hy => ha y (by simp [hy]))
    show groupsBy p (x :: (a' ++ c :: b)) = (x :: a') :: groupsBy p b
    unfold groupsBy
    rw [splitPAux_cons_neg hx]
    unfold groupsBy at ih'
    injection ih' with h1 h2
    rw [h1, h2]

theorem groupsBy_no_sep {p : Char → Bool} {cs : List Char}
    (h : ∀ x ∈ cs, p x = false) : groupsBy p cs = [cs] := by
  induction cs with
  | nil => rfl
  | cons c rest ih =>
    have hc : p c = false := h c (by simp)
    have ih' := ih (fun y hy => h y (by simp [hy]))
    unfold groupsBy
    rw [splitPAux_cons_neg hc]
    unfold groupsBy at ih'
    injection ih' with h1 h2
    rw [h1, h2]

/-- Stripping a cell padded with one space on each side strips just the
cell. -/
theorem trim_pad (x : String) :
    trimS (String.mk (' ' :: x.data ++ [' '])) = trimS x := by
  show String.mk (trimChars (' ' :: x.data ++ [' '])) = String.mk (trimChars x.data)
  congr 1
  unfold trimChars
  rw [List.cons_append, List.dropWhile_cons, if_pos (by decide)]
  rw [List.dropWhile_append]
  by_cases he : (x.data.dropWhile isPySpace).isEmpty = true
  · rw [if_pos he]
    rw [List.isEmpty_iff] at he
    rw [he]
    show dropTrail isPySpace ([' '].dropWhile isPySpace) = dropTrail isPySpace []
    rw [show ([' '].dropWhile isPySpace) = ([] : List Char) from rfl]
  · rw [if_neg he]
    exact dropTrail_append_space (by decide)

theorem isPrefixOf_append (a b : List Char) : a.isPrefixOf (a ++ b) = true := by
  induction a with
  | nil => cases b <;> rfl
  | cons x xs ih => simp [List.isPrefixOf, ih]

theorem isSubstrL_of_isPrefixOf {sub hay : List Char} (h : sub.isPrefixOf hay = true) :
    isSubstrL sub hay = true := by
  cases hay with
  | nil =>
    cases sub with
    | nil => rfl
    | cons c cs => simp [List.isPrefixOf] at h
  | cons c rest =>
    unfold isSubstrL
    rw [h]
    simp

theorem isSubstrL_of_parts (sub pre post : List Char) :
    isSubstrL sub (pre ++ (sub ++ post)) = true := by
  induction pre with
  | nil =>
    rw [List.nil_append]
    exact isSubstrL_of_isPrefixOf (isPrefixOf_append sub post)
  | cons d pre ih =>
    rw [List.cons_append]
    unfold isSubstrL
    rw [ih]
    simp

/-- Every rendered string occurs as a substring of the rendered row. -/
theorem strContains_barRow {xs : List String} {s : String} (h : s ∈ xs) :
    strContains (barRow xs) s = true := by
  obtain ⟨l1, l2, rfl⟩ := List.append_of_mem h
  unfold strContains
  have hsplit : (barRow (l1 ++ s :: l2)).data =
      ('|' :: ((l1.map cellPiece).flatten ++ [' '])) ++
        (s.data ++ ([' ', '|'] ++ ((l2.map cellPiece).flatten))) := by
    simp [barRow, cellPiece]
  rw [hsplit]
  exact isSubstrL_of_parts _ _ _

theorem barRow_contains_bar (xs : List String) :
    (barRow xs).data.contains '|' = true :=
  contains_iff_mem.mpr (show '|' ∈ (barRow xs).data from List.mem_cons_self _ _)

theorem barRow_any_good (xs : List String) :
    (barRow xs).data.any goodChar = true :=
  List.any_eq_true.mpr
    ⟨'|', show '|' ∈ (barRow xs).data from List.mem_cons_self _ _, by decide⟩

theorem dropTrail_barRow (xs : List String) :
    dropTrail isPySpace (barRow xs).data = (barRow xs).data := by
  obtain ⟨u, hu⟩ := barRow_ends xs
  rw [hu]
  exact dropTrail_append_nonspace (by decide)

theorem trimS_barRow (xs : List String) : trimS (barRow xs) = barRow xs := by
  show String.mk (trimChars (barRow xs).data) = barRow xs
  rw [trimChars_noop_bar (show ∃ t, (barRow xs).data = '|' :: t from ⟨_, rfl⟩)
    (barRow_ends xs)]

theorem renderTable_head (P : List (String × String)) :
    ∃ t, (renderTable P).data = '|' :: t := by
  refine ⟨((P.map Prod.fst).map cellPiece).flatten ++ '\n' ::
    (sepRow.data ++ '\n' :: (barRow (P.map Prod.snd)).data), ?_⟩
  show ('|' :: ((P.map Prod.fst).map cellPiece).flatten) ++ _ = _
  rw [List.cons_append]

theorem renderTable_ends (P : List (String × String)) :
    ∃ u, (renderTable P).data = u ++ ['|'] := by
  obtain ⟨u, hu⟩ := barRow_ends (P.map Prod.snd)
  refine ⟨(barRow (P.map Prod.fst)).data ++ '\n' :: (sepRow.data ++ '\n' :: u), ?_⟩
  show (barRow _).data ++ '\n' :: (sepRow.data ++ '\n' :: (barRow _).data) = _
  rw [hu]
  simp

theorem trimS_renderTable (P : List (String × String)) :
    trimS (renderTable P) = renderTable P := by
  show String.mk (trimChars (renderTable P).data) = renderTable P
  rw [trimChars_noop_bar (renderTable_head P) (renderTable_ends P)]

theorem renderTable_ne_empty (P : List (String × String)) :
    renderTable P ≠ "" := by
  obtain ⟨t, ht⟩ := renderTable_head P
  intro h
  rw [h] at ht
  simp at ht

theorem stripLeadingFence_render (P : List (String × String)) :
    stripLeadingFence (renderTable P) = renderTable P := by
  obtain ⟨t, ht⟩ := renderTable_head P
  unfold stripLeadingFence
  rw [ht, startsWithFence_false_of_bar]
  rfl

theorem stripTrailingFence_render (P : List (String × String)) :
    stripTrailingFence (renderTable P) = renderTable P := by
  obtain ⟨u, hu⟩ := renderTable_ends P
  have hrev : (renderTable P).data.reverse = '|' :: u.reverse := by
    rw [hu]
    simp
  unfold stripTrailingFence
  rw [hrev, startsWithFence_false_of_bar]
  rfl

/-- Unpack the four conjuncts of cell well-formedness. -/
theorem cellOK_parts {c : String} (h : cellOK c = true) :
    c.data.contains '|' = false ∧ c.data.any isBreakChar = false ∧
    c.data.contains tickChar = false ∧ trimS c ≠ "" := by
  unfold cellOK at h
  simp only [Bool.and_eq_true, Bool.not_eq_true'] at h
  obtain ⟨⟨⟨h1, h2⟩, h3⟩, h4⟩ := h
  refine ⟨h1, h2, h3, fun he => ?_⟩
  rw [he] at h4
  simp at h4

theorem barRow_nobreak {xs : List String}
    (h : ∀ x ∈ xs, x.data.any isBreakChar = false) :
    ∀ c ∈ (barRow xs).data, isBreakChar c = false := by
  intro c hc
  rcases mem_barRow hc with h1 | h1 | ⟨x, hx, hcx⟩
  · subst h1; decide
  · subst h1; decide
  · have h2 := h x hx
    rw [List.any_eq_false] at h2
    simpa using h2 c hcx

theorem barRow_notick {xs : List String}
    (h : ∀ x ∈ xs, x.data.contains tickChar = false) :
    tickChar ∉ (barRow xs).data := by
  intro hm
  rcases mem_barRow hm with h1 | h1 | ⟨x, hx, hcx⟩
  · exact absurd h1 (by decide)
  · exact absurd h1 (by decide)
  · have h2 := contains_iff_mem.mpr hcx
    rw [h x hx] at h2
    exact Bool.false_ne_true h2

theorem sepRow_no_tick : tickChar ∉ sepRow.data := by decide

theorem sepRow_nobreak : ∀ c ∈ sepRow.data, isBreakChar c = false := by decide

theorem isSepLine_sepRow : App.isSepLine sepRow = true := by decide

theorem tick_not_in_render {P : List (String × String)}
    (hH : ∀ h ∈ P.map Prod.fst, (h : String).data.contains tickChar = false)
    (hC : ∀ c ∈ P.map Prod.snd, (c : String).data.contains tickChar = false) :
    tickChar ∉ (renderTable P).data := by
  intro hm
  have hm' : tickChar ∈ (barRow (P.map Prod.fst)).data ++ '\n' ::
      (sepRow.data ++ '\n' :: (barRow (P.map Prod.snd)).data) := hm
  rcases List.mem_append.mp hm' with h1 | h1
  · exact barRow_notick hH h1
  · rcases List.mem_cons.mp h1 with h2 | h2
    · exact absurd h2 (by decide)
    · rcases List.mem_append.mp h2 with h3 | h3
      · exact sepRow_no_tick h3
      · rcases List.mem_cons.mp h3 with h4 | h4
        · exact absurd h4 (by decide)
        · exact barRow_notick hC h4

/-- Splitting the rendered table into non-blank right-stripped lines
recovers exactly its three rows. -/
theorem linesOf_render {P : List (String × String)}
    (hH : ∀ h ∈ P.map Prod.fst, (h : String).data.any isBreakChar = false)
    (hC : ∀ c ∈ P.map Prod.snd, (c : String).data.any isBreakChar = false) :
    linesOf (renderTable P).data =
      [barRow (P.map Prod.fst), sepRow, barRow (P.map Prod.snd)] := by
  unfold linesOf
  have hg : groupsBy isBreakChar (renderTable P).data =
      [(barRow (P.map Prod.fst)).data, sepRow.data,
       (barRow (P.map Prod.snd)).data] := by
    show groupsBy isBreakChar ((barRow (P.map Prod.fst)).data ++ '\n' ::
      (sepRow.data ++ '\n' :: (barRow (P.map Prod.snd)).data)) = _
    rw [groupsBy_append_break _ _ _ _ (barRow_nobreak hH) (by decide)]
    rw [groupsBy_append_break _ _ _ _ sepRow_nobreak (by decide)]
    rw [groupsBy_no_sep (barRow_nobreak hC)]
  rw [hg]
  have hfS : sepRow.data.any goodChar = true := by decide
  have hdS : dropTrail isPySpace sepRow.data = sepRow.data := by decide
  simp only [List.filter_cons, barRow_any_good, hfS, if_true, List.filter_nil,
    List.map_cons, List.map_nil, dropTrail_barRow, hdS]

/-- Splitting the concatenated cell pieces on the bar yields the padded
cells followed by one empty trailing group. -/
theorem groupsBy_flatten_pieces (xs : List String)
    (hbar : ∀ x ∈ xs, x.data.contains '|' = false) :
    groupsBy (fun c => c = '|') (xs.map cellPiece).flatten =
      xs.map (fun x => ' ' :: x.data ++ [' ']) ++ [[]] := by
  induction xs with
  | nil => rfl
  | cons x rest ih =>
    have hsplit : ((x :: rest).map cellPiece).flatten =
        (' ' :: x.data ++ [' ']) ++ '|' :: ((rest.map cellPiece).flatten) := by
      simp [cellPiece]
    rw [hsplit]
    have hfree : ∀ y ∈ ' ' :: x.data ++ [' '], (fun c => (c = '|' : Bool)) y = false := by
      intro y hy
      have hy' : y ∈ (' ' :: x.data) ++ [' '] := hy
      rcases List.mem_append.mp hy' with h1 | h1
      · rcases List.mem_cons.mp h1 with h2 | h2
        · subst h2; decide
        · have hnb : '|' ∉ x.data := by
            intro hbm
            have h3 := contains_iff_mem.mpr hbm
            rw [hbar x (by simp)] at h3
            exact Bool.false_ne_true h3
          exact decide_eq_false (fun he => hnb (he ▸ h2))
      · rcases List.mem_cons.mp h1 with h2 | h2
        · subst h2; decide
        · exact absurd h2 (List.not_mem_nil y)
    rw [groupsBy_append_break _ _ _ _ hfree (by decide)]
    rw [ih (fun y hy => hbar y (List.mem_cons_of_mem x hy))]
    simp

/-- Trimming the padded cells drops the padding. -/
theorem map_mk_trim_pad (xs : List String) :
    (((xs.map (fun x => ' ' :: x.data ++ [' '])).map String.mk).map trimS) =
      xs.map trimS := by
  induction xs with
  | nil => rfl
  | cons x rest ih => simp only [List.map_cons, ih, trim_pad]

/-- Splitting a rendered row on the bar, trimming and dropping blanks
recovers the trimmed cells. -/
theorem cells_of_barRow (xs : List String)
    (hbar : ∀ x ∈ xs, x.data.contains '|' = false)
    (hnb : ∀ x ∈ xs, trimS x ≠ "") :
    cells_of (barRow xs) = xs.map trimS := by
  unfold cells_of splitBar
  have h0 : groupsBy (fun c => c = '|') (barRow xs).data =
      [] :: (xs.map (fun x => ' ' :: x.data ++ [' ']) ++ [[]]) := by
    show groupsBy (fun c => c = '|') ('|' :: (xs.map cellPiece).flatten) = _
    rw [groupsBy_cons_sep (by decide), groupsBy_flatten_pieces xs hbar]
  rw [h0]
  simp only [List.map_cons, List.map_append, List.map_nil]
  rw [map_mk_trim_pad xs]
  rw [show trimS (String.mk []) = "" from by decide]
  rw [List.filter_cons]
  rw [if_neg (by simp)]
  rw [List.filter_append]
  rw [show ([""] : List String).filter (fun c => c ≠ "") = [] from by decide]
  rw [List.append_nil]
  exact List.filter_eq_self.mpr (fun a ha => by
    obtain ⟨x, hx, rfl⟩ := List.mem_map.mp ha
    simpa using hnb x hx)

/-- `src/evaluator.py`'s header scan finds the header row of the rendered
table at index 0 whenever "Score" is among the headers. -/
theorem header_scan_render (H C : List String) (hS : "Score" ∈ H) :
    Evaluator.header_scan [barRow H, sepRow, barRow C] = some 0 := by
  unfold Evaluator.header_scan
  rw [if_pos (by rw [barRow_contains_bar, strContains_barRow hS]; rfl)]

/-- `src/app.py`'s block scan finds the rendered table at lines 0-2. -/
theorem find_block_render (H C : List String) :
    App.find_first_markdown_table_block [barRow H, sepRow, barRow C] =
      some (0, 3) := by
  unfold App.find_first_markdown_table_block
  show App.find_first_markdown_table_block_aux _ 3 0 = _
  unfold App.find_first_markdown_table_block_aux
  rw [if_pos (by norm_num)]
  have hc1 : (trimS ([barRow H, sepRow, barRow C].getD 0 "")).data.contains '|'
      = true := by
    show (trimS (barRow H)).data.contains '|' = true
    rw [trimS_barRow]
    exact barRow_contains_bar H
  have hc2 : App.isSepLine (trimS ([barRow H, sepRow, barRow C].getD (0 + 1) ""))
      = true := by
    show App.isSepLine (trimS sepRow) = true
    decide
  rw [if_pos (by rw [hc1, hc2]; rfl)]
  have hs : App.scanEnd [barRow H, sepRow, barRow C] (0 + 2) = 3 := by
    unfold App.scanEnd
    show 2 + (List.takeWhile _ [barRow C]).length = 3
    rw [List.takeWhile_cons, barRow_contains_bar]
    simp
  rw [hs]

/-- The data row with each cell whitespace-trimmed, paired with its
header. -/
def trimRow (P : List (String × String)) : List (String × String) :=
  P.map (fun kv => (kv.1, trimS kv.2))

theorem trimRow_fst (P : List (String × String)) :
    (trimRow P).map Prod.fst = P.map Prod.fst := by
  unfold trimRow
  rw [List.map_map]
  rfl

theorem zip_trimRow (P : List (String × String)) :
    (P.map Prod.fst).zip ((P.map Prod.snd).map trimS) = trimRow P := by
  unfold trimRow
  rw [List.map_map, List.zip_map']
  rfl

/-- Assigning a fresh key appends the pair. -/
theorem pyDictInsert_not_mem {d : List (String × String)} {k v : String}
    (h : ∀ kv ∈ d, kv.1 ≠ k) : pyDictInsert d k v = d ++ [(k, v)] := by
  unfold pyDictInsert
  have hcond : d.any (fun kv => kv.1 == k) = false := by
    rw [List.any_eq_false]
    intro kv hm
    simpa using h kv hm
  rw [if_neg (by rw [hcond]; exact Bool.false_ne_true)]

theorem pyDictOf_aux (Q : List (String × String)) :
    ∀ acc : List (String × String),
      (∀ kv ∈ acc, ∀ kv2 ∈ Q, kv.1 ≠ kv2.1) → (Q.map Prod.fst).Nodup →
      Q.foldl (fun d kv => pyDictInsert d kv.1 kv.2) acc = acc ++ Q := by
  induction Q with
  | nil =>
    intro acc _ _
    simp
  | cons q Q ih =>
    intro acc hdisj hnd
    simp only [List.map_cons, List.nodup_cons] at hnd
    show List.foldl (fun d kv => pyDictInsert d kv.1 kv.2)
      (pyDictInsert acc q.1 q.2) Q = acc ++ q :: Q
    rw [pyDictInsert_not_mem (fun kv hm => hdisj kv hm q (List.mem_cons_self q Q))]
    have hd2 : ∀ kv ∈ acc ++ [(q.1, q.2)], ∀ kv2 ∈ Q, kv.1 ≠ kv2.1 := by
      intro kv hm kv2 hm2
      rcases List.mem_append.mp hm with h1 | h1
      · exact hdisj kv h1 kv2 (List.mem_cons_of_mem q hm2)
      · rcases List.mem_cons.mp h1 with h2 | h2
        · subst h2
          intro he
          apply hnd.1
          rw [show q.1 = kv2.1 from he]
          exact List.mem_map.mpr ⟨kv2, hm2, rfl⟩
        · exact absurd h2 (List.not_mem_nil kv)
    rw [ih (acc ++ [(q.1, q.2)]) hd2 hnd.2]
    simp

/-- Building a Python dict from pairs with pairwise-distinct keys keeps the
pairs in order. -/
theorem pyDictOf_nodup {Q : List (String × String)}
    (h : (Q.map Prod.fst).Nodup) : pyDictOf Q = Q := by
  unfold pyDictOf
  have h0 := pyDictOf_aux Q []
    (fun kv hm => absurd hm (List.not_mem_nil kv)) h
  simpa using h0

/-- Looking a header up in the normalised dict returns the trimmed cell
paired with it in the original row, for any default. -/
theorem pyGetD_trimRow_append {P : List (String × String)} {f k : String}
    (d : String) (hk : k ∈ P.map Prod.fst) :
    pyGetD (trimRow P ++ [("filename", f)]) k d = trimS (valueFor P k) := by
  unfold pyGetD pyGet valueFor trimRow
  rw [List.find?_append, List.find?_map]
  have hcomp : ((fun kv : String × String => kv.1 == k) ∘
      (fun kv : String × String => (kv.1, trimS kv.2))) =
      (fun kv : String × String => kv.1 == k) := rfl
  rw [hcomp]
  obtain ⟨kv0, hkv0⟩ : ∃ kv0, P.find? (fun kv => kv.1 == k) = some kv0 := by
    apply Option.isSome_iff_exists.mp
    apply List.find?_isSome.mpr
    obtain ⟨kv, hm, hfst⟩ := List.mem_map.mp hk
    exact ⟨kv, hm, by simp [hfst]⟩
  rw [hkv0]
  rfl

/-- The shared row-to-mapping step on the rendered header and data rows
returns exactly the expected mapping. -/
theorem rows_to_mapped_render (P : List (String × String)) (f : String)
    (hperm : (P.map Prod.fst).Perm canonical7)
    (hcells : ∀ kv ∈ P, cellOK kv.2 = true) :
    rows_to_mapped (barRow (P.map Prod.fst)) (barRow (P.map Prod.snd)) f =
      buildExpected P f := by
  have hHfacts : ∀ h ∈ P.map Prod.fst,
      cellOK h = true ∧ trimS h = h ∧ normKey h = h ∧ h ≠ "filename" :=
    fun h hm => canonical7_facts h (hperm.mem_iff.mp hm)
  have hCok : ∀ c ∈ P.map Prod.snd, cellOK c = true := by
    intro c hm
    obtain ⟨kv, hkv, rfl⟩ := List.mem_map.mp hm
    exact hcells kv hkv
  have hheads : cells_of (barRow (P.map Prod.fst)) = P.map Prod.fst := by
    rw [cells_of_barRow _ (fun h hm => (cellOK_parts (hHfacts h hm).1).1)
      (fun h hm => (cellOK_parts (hHfacts h hm).1).2.2.2)]
    have h1 : (P.map Prod.fst).map trimS = (P.map Prod.fst).map id :=
      List.map_congr_left fun h hm => (hHfacts h hm).2.1
    rw [h1, List.map_id]
  have hdata : cells_of (barRow (P.map Prod.snd)) = (P.map Prod.snd).map trimS :=
    cells_of_barRow _ (fun c hm => (cellOK_parts (hCok c hm)).1)
      (fun c hm => (cellOK_parts (hCok c hm)).2.2.2)
  have hnodupH : (P.map Prod.fst).Nodup := hperm.nodup_iff.mpr canonical7_nodup
  have hkeysQ : ∀ kv ∈ trimRow P, kv.1 ∈ canonical7 := by
    intro kv hm
    obtain ⟨kv0, hkv0, rfl⟩ := List.mem_map.mp hm
    exact hperm.mem_iff.mp (List.mem_map.mpr ⟨kv0, hkv0, rfl⟩)
  have hnodupQ : ((trimRow P).map Prod.fst).Nodup := by
    rw [trimRow_fst]
    exact hnodupH
  have hfn : ∀ kv ∈ trimRow P, kv.1 ≠ "filename" :=
    fun kv hm => (canonical7_facts kv.1 (hkeysQ kv hm)).2.2.2
  have hnorm : (trimRow P).map (fun kv => (normKey kv.1, kv.2)) = trimRow P := by
    have h1 : (trimRow P).map (fun kv => (normKey kv.1, kv.2)) =
        (trimRow P).map id :=
      List.map_congr_left fun kv hm => by
        rw [(canonical7_facts kv.1 (hkeysQ kv hm)).2.2.1]
        rfl
    rw [h1, List.map_id]
  have hnodup2 : (((trimRow P) ++ [("filename", f)]).map Prod.fst).Nodup := by
    rw [List.map_append, trimRow_fst, List.nodup_append]
    refine ⟨hnodupH, by simp, ?_⟩
    intro a ha hb
    have hafn : a = "filename" := by simpa using hb
    exact (canonical7_facts a (hperm.mem_iff.mp ha)).2.2.2 hafn
  have hk1 : "Score" ∈ P.map Prod.fst := hperm.mem_iff.mpr (by decide)
  have hk2 : "Fit" ∈ P.map Prod.fst := hperm.mem_iff.mpr (by decide)
  have hk3 : "Rationale" ∈ P.map Prod.fst := hperm.mem_iff.mpr (by decide)
  have hk4 : "Matched Skills" ∈ P.map Prod.fst := hperm.mem_iff.mpr (by decide)
  have hk5 : "Missing Skills" ∈ P.map Prod.fst := hperm.mem_iff.mpr (by decide)
  have hk6 : "Top Qualifications" ∈ P.map Prod.fst := hperm.mem_iff.mpr (by decide)
  have hk7 : "Quantifiable Achievements" ∈ P.map Prod.fst :=
    hperm.mem_iff.mpr (by decide)
  unfold rows_to_mapped
  simp only [hheads, hdata]
  rw [if_neg (not_ne_iff.mpr (by simp))]
  rw [zip_trimRow]
  rw [pyDictOf_nodup hnodupQ]
  rw [pyDictInsert_not_mem hfn]
  rw [List.map_append, hnorm]
  rw [show ([("filename", f)] : List (String × String)).map
      (fun kv => (normKey kv.1, kv.2)) = [("filename", f)] from by
    simp [show normKey "filename" = "filename" from by decide]]
  rw [pyDictOf_nodup hnodup2]
  rw [pyGetD_trimRow_append _ hk1, pyGetD_trimRow_append _ hk2,
    pyGetD_trimRow_append _ hk3, pyGetD_trimRow_append _ hk4,
    pyGetD_trimRow_append _ hk5, pyGetD_trimRow_append _ hk6,
    pyGetD_trimRow_append _ hk7]
  rfl

/-- C7: for every well-formed single-row markdown table whose header row
consists of the seven canonical headers (Score, Fit, Rationale, Matched
Skills, Missing Skills, Top Qualifications, Quantifiable Achievements) in
any order, both parsers (`src/evaluator.py` lines 103-156 and `src/app.py`
lines 234-292) return a mapping in which each canonical key's value equals
the whitespace-trimmed content of the corresponding cell of the data
row. -/
theorem c7_parser_round_trip (P : List (String × String)) (f : String)
    (hperm : (P.map Prod.fst).Perm canonical7)
    (hcells : ∀ kv ∈ P, cellOK kv.2 = true) :
    Evaluator.parse_markdown_table (PyInput.pyStr (renderTable P)) f =
        buildExpected P f ∧
      App.parse_markdown_table (PyInput.pyStr (renderTable P)) f =
        buildExpected P f := by
  have hHok : ∀ h ∈ P.map Prod.fst, cellOK h = true :=
    fun h hm => (canonical7_facts h (hperm.mem_iff.mp hm)).1
  have hCok : ∀ c ∈ P.map Prod.snd, cellOK c = true := by
    intro c hm
    obtain ⟨kv, hkv, rfl⟩ := List.mem_map.mp hm
    exact hcells kv hkv
  have hlines := linesOf_render (fun h hm => (cellOK_parts (hHok h hm)).2.1)
    (fun c hm => (cellOK_parts (hCok c hm)).2.1)
  have hrows := rows_to_mapped_render P f hperm hcells
  have hkS : "Score" ∈ P.map Prod.fst := hperm.mem_iff.mpr (by decide)
  constructor
  · unfold Evaluator.parse_markdown_table
    dsimp only
    rw [trimS_renderTable]
    rw [if_neg (renderTable_ne_empty P)]
    rw [stripLeadingFence_render, stripTrailingFence_render]
    rw [hlines]
    rw [header_scan_render _ _ hkS]
    exact hrows
  · unfold App.parse_markdown_table
    dsimp only
    rw [trimS_renderTable]
    rw [if_neg (renderTable_ne_empty P)]
    rw [stripLeadingFence_render, stripTrailingFence_render]
    rw [strip_code_fences_noop (tick_not_in_render
      (fun h hm => (cellOK_parts (hHok h hm)).2.2.1)
      (fun c hm => (cellOK_parts (hCok c hm)).2.2.1))]
    rw [hlines]
    rw [find_block_render]
    exact hrows

/-- Witness for `c7_parser_round_trip`: a concrete table with the seven
canonical headers in a shuffled order round-trips through both parsers. -/
theorem c7_parser_round_trip_witness :
    ((([("Fit", "High"), ("Score", "8.6"), ("Rationale", "Strong skill match"),
        ("Missing Skills", "Kubernetes"), ("Matched Skills", "Python; SQL"),
        ("Quantifiable Achievements", "Cut latency 40%"),
        ("Top Qualifications", "MSc CS")] :
          List (String × String)).map Prod.fst).Perm canonical7 ∧
      (∀ kv ∈ ([("Fit", "High"), ("Score", "8.6"),
        ("Rationale", "Strong skill match"), ("Missing Skills", "Kubernetes"),
        ("Matched Skills", "Python; SQL"),
        ("Quantifiable Achievements", "Cut latency 40%"),
        ("Top Qualifications", "MSc CS")] : List (String × String)),
        cellOK kv.2 = true)) ∧
    (Evaluator.parse_markdown_table (PyInput.pyStr (renderTable
        [("Fit", "High"), ("Score", "8.6"), ("Rationale", "Strong skill match"),
         ("Missing Skills", "Kubernetes"), ("Matched Skills", "Python; SQL"),
         ("Quantifiable Achievements", "Cut latency 40%"),
         ("Top Qualifications", "MSc CS")])) "cv.pdf" =
      buildExpected
        [("Fit", "High"), ("Score", "8.6"), ("Rationale", "Strong skill match"),
         ("Missing Skills", "Kubernetes"), ("Matched Skills", "Python; SQL"),
         ("Quantifiable Achievements", "Cut latency 40%"),
         ("Top Qualifications", "MSc CS")] "cv.pdf" ∧
      App.parse_markdown_table (PyInput.pyStr (renderTable
        [("Fit", "High"), ("Score", "8.6"), ("Rationale", "Strong skill match"),
         ("Missing Skills", "Kubernetes"), ("Matched Skills", "Python; SQL"),
         ("Quantifiable Achievements", "Cut latency 40%"),
         ("Top Qualifications", "MSc CS")])) "cv.pdf" =
      buildExpected
        [("Fit", "High"), ("Score", "8.6"), ("Rationale", "Strong skill match"),
         ("Missing Skills", "Kubernetes"), ("Matched Skills", "Python; SQL"),
         ("Quantifiable Achievements", "Cut latency 40%"),
         ("Top Qualifications", "MSc CS")] "cv.pdf") :=
  ⟨⟨by decide, by decide⟩,
   c7_parser_round_trip
     [("Fit", "High"), ("Score", "8.6"), ("Rationale", "Strong skill match"),
      ("Missing Skills", "Kubernetes"), ("Matched Skills", "Python; SQL"),
      ("Quantifiable Achievements", "Cut latency 40%"),
      ("Top Qualifications", "MSc CS")] "cv.pdf" (by decide) (by decide)⟩
